import Mathlib

/-!
Verification of the media-organizer pipeline in `src/main.go`.

The Go program is embedded shallowly:

* Pure string formatting (`fmt.Sprintf("%02d", _)`, `time.Time.Format`)
  becomes executable Lean string functions over decimal digits.
* The filesystem and the metadata libraries are oracles: every outcome of
  an I/O call that the code consults (hash result, EXIF decode result,
  `os.Stat` result, the success of `os.MkdirAll` / `os.Remove` /
  `os.Rename` / `os.Create` / `io.Copy`) is a field of the per-file record
  `WalkEntry` (or of `MoveEnv` for the transfer primitive), so one
  `WalkEntry` describes everything `processFiles` can observe about a file.
* `filepath.Walk` delivers entries in a fixed order; the embedding takes
  that list of entries directly, and `processFiles` folds over it exactly
  as the Go walk callback does, short-circuiting on a returned error.
* Mutating filesystem calls are recorded in an `FsOp` trace; printed
  report lines are recorded in the per-file `Outcome`.
-/

deriving instance DecidableEq for Except

/-- Character for a single decimal digit (used to model Go's decimal
formatting of non-negative integers). -/
def digitChar (n : Nat) : Char :=
  if n = 0 then '0'
  else if n = 1 then '1'
  else if n = 2 then '2'
  else if n = 3 then '3'
  else if n = 4 then '4'
  else if n = 5 then '5'
  else if n = 6 then '6'
  else if n = 7 then '7'
  else if n = 8 then '8'
  else '9'

/-- Fuel-driven decimal digit list of a natural number, most significant
first; with fuel greater than `n` it is the usual decimal representation. -/
def natToDigitsAux (fuel : Nat) (n : Nat) : List Char :=
  match fuel with
  | 0 => []
  | fuel + 1 =>
    if n < 10 then [digitChar n]
    else natToDigitsAux fuel (n / 10) ++ [digitChar (n % 10)]

/-- Decimal digit list of `n`, most significant first (Go `%d` for a
non-negative integer). -/
def natToDigits (n : Nat) : List Char := natToDigitsAux (n + 1) n

/-- Decimal string of `n` (Go `%d` / `strconv` formatting, non-negative). -/
def natToString (n : Nat) : String := ⟨natToDigits n⟩

/-- Go's `%02d` / `Format "02"`: decimal, zero-padded on the left to at
least two characters. -/
def pad2 (n : Nat) : String :=
  if n < 10 then "0" ++ natToString n else natToString n

/-- Go's `Format "2006"`: decimal year, zero-padded on the left to at
least four characters. -/
def pad4 (n : Nat) : String :=
  if n < 10 then "000" ++ natToString n
  else if n < 100 then "00" ++ natToString n
  else if n < 1000 then "0" ++ natToString n
  else natToString n

/-- Value of a digit list read in base ten (proof-side decoder for the
formatting functions). -/
def digitsVal (l : List Char) : Nat :=
  l.foldl (fun a c => 10 * a + (c.toNat - 48)) 0

/-- The components of a Go `time.Time` value that the program formats:
`Format` layouts `"02-01-2006-15-04-05"`, `"2006"` and `"01"` only read
day, month, year, hour, minute and second. -/
structure GoTime where
  year : Nat
  month : Nat
  day : Nat
  hour : Nat
  minute : Nat
  second : Nat
deriving DecidableEq, Repr

/-- Bounds satisfied by every timestamp Go's `time` package will actually
format here (normalized calendar fields, year below 10000): they make each
formatted field have its nominal width. -/
def GoTime.wf (t : GoTime) : Prop :=
  t.year < 10000 ∧ t.month < 100 ∧ t.day < 100 ∧
    t.hour < 100 ∧ t.minute < 100 ∧ t.second < 100

instance (t : GoTime) : Decidable t.wf := by
  unfold GoTime.wf; infer_instance

/-- Go `fileDate.Format("02-01-2006-15-04-05")` (main.go line 125). -/
def fmtTimestamp (t : GoTime) : String :=
  pad2 t.day ++ "-" ++ pad2 t.month ++ "-" ++ pad4 t.year ++ "-" ++
    pad2 t.hour ++ "-" ++ pad2 t.minute ++ "-" ++ pad2 t.second

/-- isImageFile checks if the file extension is a known image extension
(main.go lines 166-173). -/
def isImageFile (ext : String) : Bool :=
  ext == ".jpg" || ext == ".jpeg" || ext == ".png" || ext == ".gif" ||
    ext == ".bmp" || ext == ".tiff" || ext == ".webp"

/-- isVideoFile checks if the file extension is a known video extension
(main.go lines 176-183). -/
def isVideoFile (ext : String) : Bool :=
  ext == ".mp4" || ext == ".avi" || ext == ".mov" || ext == ".mkv" ||
    ext == ".vob" || ext == ".flv" || ext == ".wmv" || ext == ".webm" ||
    ext == ".mpg"

/-- Oracles for the EXIF library calls made by `getImageDate`
(main.go lines 234-254): the `os.Open` error, the `exif.Decode` error, and
the result of `x.DateTime()`. `none` means the call succeeds. -/
structure ExifMeta where
  openErr : Option String
  decodeErr : Option String
  dateTimeResult : Except String GoTime
deriving DecidableEq, Repr

/-- Oracles for the metadata calls of `getFileDate`: the EXIF oracles and
the `os.Stat` / `ModTime` result used by `getFileCreationDate`
(main.go lines 265-272). -/
structure FileMeta where
  exif : ExifMeta
  statResult : Except String GoTime
deriving DecidableEq, Repr

/-- getImageDate reads EXIF data from an image and returns the date taken
(main.go lines 234-254).  Failures are wrapped with `fmt.Errorf`, keeping
the original cause as the suffix of the message. -/
def getImageDate (filePath : String) (m : ExifMeta) : Except String GoTime :=
  match m.openErr with
  | some e => .error e
  | none =>
    match m.decodeErr with
    | some e =>
      .error ("error extracting EXIF data from image " ++ filePath ++ ": " ++ e)
    | none =>
      match m.dateTimeResult with
      | .error e =>
        .error ("error extracting date from EXIF data for image " ++ filePath ++ ": " ++ e)
      | .ok date => .ok date

/-- getFileCreationDate returns the file's modification time from `os.Stat`
(main.go lines 265-272). -/
def getFileCreationDate (filePath : String) (m : FileMeta) : Except String GoTime :=
  match m.statResult with
  | .error e => .error e
  | .ok t => .ok t

/-- getVideoDate uses file creation time (main.go lines 258-262). -/
def getVideoDate (filePath : String) (m : FileMeta) : Except String GoTime :=
  getFileCreationDate filePath m

/-- getFileDate attempts to extract the date from an image or video file
(main.go lines 205-232). `ext` models `strings.ToLower(filepath.Ext
filePath)` computed at line 206 — the same value the pipeline computes at
line 72 for the same path. -/
def getFileDate (filePath ext : String) (m : FileMeta) : Except String GoTime :=
  if isImageFile ext then
    match getImageDate filePath m.exif with
    | .error e => .error ("error extracting date from image " ++ filePath ++ ": " ++ e)
    | .ok d => .ok d
  else if isVideoFile ext then
    match getVideoDate filePath m with
    | .error e => .error ("error extracting date from video " ++ filePath ++ ": " ++ e)
    | .ok d => .ok d
  else
    match getFileCreationDate filePath m with
    | .error e => .error ("error getting file creation date for " ++ filePath ++ ": " ++ e)
    | .ok d => .ok d

/-- Oracles for the filesystem calls made by `moveFile` / `copyFile`
(main.go lines 274-315): `os.MkdirAll`, `os.Rename`, `os.Open(src)`,
`os.Create(dest)`, `io.Copy`, `os.Remove(src)`.  `none` means success. -/
structure MoveEnv where
  mkdirErr : Option String
  renameErr : Option String
  openErr : Option String
  createErr : Option String
  ioErr : Option String
  removeErr : Option String
deriving DecidableEq, Repr

/-- Trace entry for a filesystem call that can mutate the tree. -/
inductive FsOp where
  | mkdirAll (dir : String)
  | removeFile (path : String)
  | renamed (src dest : String)
  | createdFile (dest : String) (complete : Bool)
deriving DecidableEq, Repr

/-- Whether a filesystem operation touches (renames, deletes, creates or
truncates) the entry at path `p`. -/
def FsOp.touches (op : FsOp) (p : String) : Bool :=
  match op with
  | .mkdirAll _ => false
  | .removeFile q => q == p
  | .renamed q _ => q == p
  | .createdFile q _ => q == p

/-- Model of `filepath.Dir`: everything strictly before the last slash
(`"."` when there is no slash; adequate for the non-root paths the
pipeline builds). -/
def dirOf (p : String) : String :=
  match (p.data.reverse).dropWhile (fun c => c != '/') with
  | [] => "."
  | _ :: rest => ⟨rest.reverse⟩

/-- copyFile copies a file from src to dest (main.go lines 300-315):
open the source, create the destination, stream the bytes.  Returns the
mutating operations performed and the error, if any.  On an `io.Copy`
failure the created destination file is left behind with partial
content (`complete = false`). -/
def copyFile (src dest : String) (env : MoveEnv) : List FsOp × Option String :=
  match env.openErr with
  | some e => ([], some e)
  | none =>
    match env.createErr with
    | some e => ([], some e)
    | none =>
      match env.ioErr with
      | some e => ([.createdFile dest false], some e)
      | none => ([.createdFile dest true], none)

/-- moveFile moves a file from source to target location (main.go lines
275-297): `os.MkdirAll(filepath.Dir(dest))`, then `os.Rename`; if the
rename fails, `copyFile` followed by `os.Remove(src)`. -/
def moveFile (src dest : String) (env : MoveEnv) : List FsOp × Option String :=
  match env.mkdirErr with
  | some e => ([], some e)
  | none =>
    match env.renameErr with
    | none => ([.mkdirAll (dirOf dest), .renamed src dest], none)
    | some _ =>
      match copyFile src dest env with
      | (ops, some e) => (.mkdirAll (dirOf dest) :: ops, some e)
      | (ops, none) =>
        match env.removeErr with
        | none => (.mkdirAll (dirOf dest) :: (ops ++ [.removeFile src]), none)
        | some e => (.mkdirAll (dirOf dest) :: ops, some e)

/-- One entry delivered by `filepath.Walk`, together with the oracles for
every I/O call `processFiles` can make on it:

* `walkErr` — the non-nil `err` argument of the walk callback (line 62);
* `ext` — `strings.ToLower(filepath.Ext(path))` (line 72);
* `hashResult` — the result of `calculateFileHash path` (line 77), i.e.
  the hex SHA-256 content fingerprint or the read error (byte-for-byte
  identical contents have equal fingerprints);
* `meta` — the metadata oracles consumed by `getFileDate` (line 100);
* `nowTime` — the value `time.Now()` would return at line 105;
* `removeErr` — the result of `os.Remove path` for a duplicate (line 86);
* `mkdirErr` — the result of `os.MkdirAll subDir` (line 119);
* `moveEnv` — the oracles of `moveFile` (line 150). -/
structure WalkEntry where
  path : String
  isDir : Bool
  walkErr : Option String
  ext : String
  hashResult : Except String String
  meta : FileMeta
  nowTime : GoTime
  removeErr : Option String
  mkdirErr : Option String
  moveEnv : MoveEnv
deriving DecidableEq, Repr

/-- A walk entry that enters the hashing branch: no walk error, not a
directory, and an image or video extension (main.go lines 62-75). -/
def isMediaEntry (f : WalkEntry) : Bool :=
  f.walkErr.isNone && !f.isDir && (isImageFile f.ext || isVideoFile f.ext)

/-- The content fingerprint of an entry, when hashing succeeds. -/
def hashOf (f : WalkEntry) : Option String :=
  match f.hashResult with
  | .ok h => some h
  | .error _ => none

/-- The date the pipeline ends up using for an entry (main.go lines
100-106): the `getFileDate` result, or `time.Now()` if it failed. -/
def resolvedDate (f : WalkEntry) : GoTime :=
  match getFileDate f.path f.ext f.meta with
  | .ok d => d
  | .error _ => f.nowTime

/-- Whether the pipeline fell back to `time.Now()` for this entry
(main.go line 105). -/
def dateFellBack (f : WalkEntry) : Bool :=
  match getFileDate f.path f.ext f.meta with
  | .ok _ => false
  | .error _ => true

/-- The two mutable maps of `processFiles` (main.go lines 57-58), as
association lists with overwrite-by-prepend (`List.lookup` returns the
most recent binding, matching Go map semantics). -/
structure PState where
  fileHashes : List (String × String)
  timestampCounter : List (String × Nat)
deriving DecidableEq, Repr

/-- The counter value the next file with formatted timestamp
`timestampStr` will be assigned (main.go lines 128-131): `0` if the string
is unseen, otherwise one more than the stored count. -/
def nextIdx (timestampStr : String) (st : PState) : Nat :=
  match List.lookup timestampStr st.timestampCounter with
  | some count => count + 1
  | none => 0

/-- The new filename (main.go lines 136-143): bare timestamp when the
counter is 0, otherwise `fmt.Sprintf("%s-%02d%s", timestampStr, counter,
ext)`. -/
def mkFileName (timestampStr : String) (counter : Nat) (ext : String) : String :=
  if counter > 0 then timestampStr ++ "-" ++ pad2 counter ++ ext
  else timestampStr ++ ext

/-- Per-file result of the walk callback, mirroring its printed report
lines and exit paths. -/
inductive Outcome where
  | walkFail (path e : String)
  | dirSkip (path : String)
  | otherSkip (path : String)
  | hashFail (path e : String)
  | dupFound (path existing : String) (deleteAttempted deleteOk : Bool)
  | mkdirFail (path subDir e : String)
  | moveFail (path dst e : String)
  | placed (path subDir ts : String) (counter : Nat) (ext : String)
      (fellBack dry : Bool)
deriving DecidableEq, Repr

/-- The error a fatal outcome returns from the walk callback, aborting the
walk (`nil`-returning outcomes give `none`). -/
def Outcome.fatalErr : Outcome → Option String
  | .walkFail _ e => some e
  | .hashFail _ e => some e
  | .mkdirFail _ _ e => some e
  | .moveFail _ _ e => some e
  | _ => none

/-- Whether the outcome aborts the walk. -/
def Outcome.fatal (o : Outcome) : Bool := o.fatalErr.isSome

/-- The formatted timestamp string of a placement outcome. -/
def Outcome.tsOf : Outcome → Option String
  | .placed _ _ ts _ _ _ _ => some ts
  | _ => none

/-- The destination path of a placement outcome (main.go line 146:
`filepath.Join(subDir, newFileName)`). -/
def Outcome.dst : Outcome → Option String
  | .placed _ subDir ts counter ext _ _ =>
    some (subDir ++ "/" ++ mkFileName ts counter ext)
  | _ => none

/-- The destination subdirectory for an entry (main.go lines 108-116):
`filepath.Join(targetDir, "images"|"videos", Format "2006", Format "01")`,
with `filepath.Join(a, b)` modelled as `a ++ "/" ++ b` (the `else` branch
is only reached for video extensions, since the caller has already checked
`isImageFile || isVideoFile`). -/
def subDirOf (targetDir : String) (f : WalkEntry) : String :=
  if isImageFile f.ext then
    targetDir ++ "/" ++ "images" ++ "/" ++ pad4 (resolvedDate f).year ++ "/" ++
      pad2 (resolvedDate f).month
  else
    targetDir ++ "/" ++ "videos" ++ "/" ++ pad4 (resolvedDate f).year ++ "/" ++
      pad2 (resolvedDate f).month

/-- Continuation of the walk callback for a new (non-duplicate) media file
with fingerprint `hash` (main.go lines 96-157): record the hash, resolve
the date, build the year/month subdirectory, `os.MkdirAll` it, allocate
the collision counter for the formatted timestamp, and move (or, in
dry-run, only report). -/
def stepNew (targetDir : String) (dryRun : Bool) (st : PState)
    (f : WalkEntry) (hash : String) : PState × Outcome × List FsOp :=
  let st1 : PState := ⟨(hash, f.path) :: st.fileHashes, st.timestampCounter⟩
  let fileDate := resolvedDate f
  let subDir := subDirOf targetDir f
  match f.mkdirErr with
  | some e => (st1, .mkdirFail f.path subDir e, [])
  | none =>
    let timestampStr := fmtTimestamp fileDate
    let counter := nextIdx timestampStr st1
    let st2 : PState := ⟨st1.fileHashes, (timestampStr, counter) :: st1.timestampCounter⟩
    let newPath := subDir ++ "/" ++ mkFileName timestampStr counter f.ext
    if !dryRun then
      match moveFile f.path newPath f.moveEnv with
      | (mops, some e) => (st2, .moveFail f.path newPath e, .mkdirAll subDir :: mops)
      | (mops, none) =>
        (st2, .placed f.path subDir timestampStr counter f.ext (dateFellBack f) false,
          .mkdirAll subDir :: mops)
    else
      (st2, .placed f.path subDir timestampStr counter f.ext (dateFellBack f) true,
        [.mkdirAll subDir])

/-- The walk callback of `processFiles` (main.go lines 61-161) on one
entry: propagate a walk error, skip directories and non-media extensions,
hash, handle duplicates (delete best-effort outside dry-run), otherwise
continue with `stepNew`. -/
def stepFile (targetDir : String) (dryRun : Bool) (st : PState)
    (f : WalkEntry) : PState × Outcome × List FsOp :=
  match f.walkErr with
  | some e => (st, .walkFail f.path e, [])
  | none =>
    if f.isDir then (st, .dirSkip f.path, [])
    else if isImageFile f.ext || isVideoFile f.ext then
      match f.hashResult with
      | .error e => (st, .hashFail f.path e, [])
      | .ok hash =>
        match List.lookup hash st.fileHashes with
        | some existingPath =>
          if !dryRun then
            match f.removeErr with
            | none => (st, .dupFound f.path existingPath true true, [.removeFile f.path])
            | some _ => (st, .dupFound f.path existingPath true false, [])
          else (st, .dupFound f.path existingPath false false, [])
        | none => stepNew targetDir dryRun st f hash
    else (st, .otherSkip f.path, [])

/-- Result of a whole run: final maps, the per-file outcomes in walk
order, the filesystem-mutating calls in order, and the error returned by
`filepath.Walk` (if a callback aborted). -/
structure RunResult where
  state : PState
  outcomes : List Outcome
  ops : List FsOp
  err : Option String
deriving DecidableEq, Repr

/-- Folding the walk callback over the entries delivered by
`filepath.Walk`, stopping at the first callback error exactly as
`filepath.Walk` does. -/
def runFiles (targetDir : String) (dryRun : Bool) :
    PState → List WalkEntry → RunResult
  | st, [] => ⟨st, [], [], none⟩
  | st, f :: fs =>
    let r := stepFile targetDir dryRun st f
    match h : r.2.1.fatalErr with
    | some e => ⟨r.1, [r.2.1], r.2.2, some e⟩
    | none =>
      let rest := runFiles targetDir dryRun r.1 fs
      ⟨rest.state, r.2.1 :: rest.outcomes, r.2.2 ++ rest.ops, rest.err⟩

/-- processFiles processes files in the source directory (main.go lines
56-162): empty maps, then the walk over the entries that
`filepath.Walk sourceDir` yields. -/
def processFiles (sourceDir targetDir : String) (dryRun : Bool)
    (files : List WalkEntry) : RunResult :=
  runFiles targetDir dryRun ⟨[], []⟩ files

/-- The path of the first media entry in the list whose content
fingerprint is `h` — the value `fileHashes[h]` holds once such an entry
has been processed. -/
def firstWithHash (h : String) : List WalkEntry → Option String
  | [] => none
  | f :: fs =>
    if isMediaEntry f && (hashOf f == some h) then some f.path
    else firstWithHash h fs

/-- The `(counter, ext)` pairs of the placement outcomes whose formatted
timestamp string is `T`, in processing order. -/
def placedWithTs (T : String) (os : List Outcome) : List (Nat × String) :=
  os.filterMap fun o =>
    match o with
    | .placed _ _ ts c e _ _ => if ts = T then some (c, e) else none
    | _ => none

/-- A successful transfer environment: every filesystem call in
`moveFile` succeeds (fixture for concrete runs). -/
def mEnvOk : MoveEnv := ⟨none, none, none, none, none, none⟩

/-- Metadata oracles whose EXIF date and stat time both resolve to `gt`
(fixture for concrete runs). -/
def metaAt (gt : GoTime) : FileMeta := ⟨⟨none, none, .ok gt⟩, .ok gt⟩

/-- A walk entry with the given path, extension, resolved date and content
fingerprint, all I/O succeeding (fixture for concrete runs). -/
def entryAt (p ext : String) (gt : GoTime) (hash : String) : WalkEntry :=
  ⟨p, false, none, ext, .ok hash, metaAt gt, ⟨2024, 1, 1, 0, 0, 0⟩, none, none, mEnvOk⟩

/-- A walk entry for an image whose EXIF decode fails: stat reports
modification time 2020-01-02 03:04:05, while the wall clock at processing
reads 2021-06-07 08:09:10 (fixture for concrete runs). -/
def brokenExifEntry : WalkEntry :=
  ⟨"/s/a.jpg", false, none, ".jpg", .ok "h1",
    ⟨⟨none, some "exif decode failed", .error "unused"⟩, .ok ⟨2020, 1, 2, 3, 4, 5⟩⟩,
    ⟨2021, 6, 7, 8, 9, 10⟩, none, none, mEnvOk⟩

/-- First of three fixture entries for a duplicate-handling run. -/
def eDupA : WalkEntry := entryAt "/s/a.jpg" ".jpg" ⟨2023, 5, 1, 10, 0, 0⟩ "h1"

/-- Second fixture entry: byte-identical to `eDupA` (same fingerprint
`"h1"`), and its `os.Remove` fails with a permission error. -/
def eDupB : WalkEntry :=
  ⟨"/s/b.jpg", false, none, ".jpg", .ok "h1", metaAt ⟨2023, 5, 1, 10, 0, 0⟩,
    ⟨2024, 1, 1, 0, 0, 0⟩, some "permission denied", none, mEnvOk⟩

/-- Third fixture entry, distinct content, processed after the duplicate. -/
def eDupC : WalkEntry := entryAt "/s/c.jpg" ".jpg" ⟨2023, 5, 2, 11, 0, 0⟩ "h3"

/-! ### Decimal formatting lemmas -/

theorem natToDigitsAux_congr :
    ∀ fuel₁ fuel₂ n : Nat, n < fuel₁ → n < fuel₂ →
      natToDigitsAux fuel₁ n = natToDigitsAux fuel₂ n := by
  intro fuel₁
  induction fuel₁ with
  | zero => intro fuel₂ n h _; omega
  | succ fuel ih =>
    intro fuel₂ n h₁ h₂
    cases fuel₂ with
    | zero => omega
    | succ fuel₂ =>
      simp only [natToDigitsAux]
      by_cases h10 : n < 10
      · simp [h10]
      · have hd : n / 10 < n := Nat.div_lt_self (by omega) (by omega)
        simp only [h10, if_false]
        rw [ih fuel₂ (n / 10) (by omega) (by omega)]

theorem natToDigits_eq (n : Nat) :
    natToDigits n =
      if n < 10 then [digitChar n]
      else natToDigits (n / 10) ++ [digitChar (n % 10)] := by
  by_cases h : n < 10
  · simp [natToDigits, natToDigitsAux, h]
  · have hd : n / 10 < n := Nat.div_lt_self (by omega) (by omega)
    simp only [h, if_false]
    show natToDigitsAux (n + 1) n = natToDigitsAux (n / 10 + 1) (n / 10) ++ [digitChar (n % 10)]
    have hstep : natToDigitsAux (n + 1) n = natToDigitsAux n (n / 10) ++ [digitChar (n % 10)] := by
      simp [natToDigitsAux, h]
    rw [hstep, natToDigitsAux_congr n (n / 10 + 1) (n / 10) (by omega) (by omega)]

theorem digitChar_isDigit (n : Nat) : (digitChar n).isDigit = true := by
  unfold digitChar
  repeat' split
  all_goals decide

theorem digitChar_toNat (n : Nat) (h : n < 10) : (digitChar n).toNat = 48 + n := by
  have hall : ∀ m, m < 10 → (digitChar m).toNat = 48 + m := by decide
  exact hall n h

theorem digitsVal_append (l : List Char) (c : Char) :
    digitsVal (l ++ [c]) = 10 * digitsVal l + (c.toNat - 48) := by
  unfold digitsVal
  rw [List.foldl_append]
  rfl

theorem digitsVal_cons_zero (l : List Char) :
    digitsVal ('0' :: l) = digitsVal l := by
  unfold digitsVal
  rfl

theorem digitsVal_natToDigits (n : Nat) : digitsVal (natToDigits n) = n := by
  induction n using Nat.strong_induction_on with
  | _ n ih =>
    rw [natToDigits_eq]
    by_cases h : n < 10
    · simp only [h, if_true]
      have : digitsVal [digitChar n] = (digitChar n).toNat - 48 := by
        unfold digitsVal
        simp [List.foldl]
      rw [this, digitChar_toNat n h]
      omega
    · simp only [h, if_false]
      rw [digitsVal_append, ih (n / 10) (Nat.div_lt_self (by omega) (by omega)),
        digitChar_toNat (n % 10) (Nat.mod_lt _ (by omega))]
      omega

theorem natToDigits_all_digits (n : Nat) :
    ∀ c ∈ natToDigits n, c.isDigit = true := by
  induction n using Nat.strong_induction_on with
  | _ n ih =>
    rw [natToDigits_eq]
    by_cases h : n < 10
    · simp [h, digitChar_isDigit]
    · simp only [h, if_false]
      intro c hc
      rcases List.mem_append.1 hc with h1 | h1
      · exact ih (n / 10) (Nat.div_lt_self (by omega) (by omega)) c h1
      · rw [List.mem_singleton.1 h1]
        exact digitChar_isDigit _

theorem natToDigits_length_lt10 (n : Nat) (h : n < 10) :
    (natToDigits n).length = 1 := by
  rw [natToDigits_eq]; simp [h]

theorem natToDigits_length_lt100 (n : Nat) (h10 : 10 ≤ n) (h : n < 100) :
    (natToDigits n).length = 2 := by
  rw [natToDigits_eq]
  have : ¬ n < 10 := by omega
  simp [this, natToDigits_length_lt10 (n / 10) (by omega)]

theorem natToDigits_length_lt1000 (n : Nat) (h100 : 100 ≤ n) (h : n < 1000) :
    (natToDigits n).length = 3 := by
  rw [natToDigits_eq]
  have : ¬ n < 10 := by omega
  simp [this, natToDigits_length_lt100 (n / 10) (by omega) (by omega)]

theorem natToDigits_length_lt10000 (n : Nat) (h1000 : 1000 ≤ n) (h : n < 10000) :
    (natToDigits n).length = 4 := by
  rw [natToDigits_eq]
  have : ¬ n < 10 := by omega
  simp [this, natToDigits_length_lt1000 (n / 10) (by omega) (by omega)]

theorem pad2_data (n : Nat) :
    (pad2 n).data = if n < 10 then '0' :: natToDigits n else natToDigits n := by
  unfold pad2 natToString
  by_cases h : n < 10 <;> simp [h]

theorem digitsVal_pad2 (n : Nat) : digitsVal (pad2 n).data = n := by
  rw [pad2_data]
  by_cases h : n < 10
  · simp only [h, if_true]
    rw [digitsVal_cons_zero, digitsVal_natToDigits]
  · simp only [h, if_false]
    exact digitsVal_natToDigits n

theorem pad2_inj {a b : Nat} (h : pad2 a = pad2 b) : a = b := by
  have ha := digitsVal_pad2 a
  rw [h, digitsVal_pad2] at ha
  omega

theorem pad2_length (n : Nat) (h : n < 100) : (pad2 n).data.length = 2 := by
  rw [pad2_data]
  by_cases h10 : n < 10
  · simp [h10, natToDigits_length_lt10 n h10]
  · simp [h10, natToDigits_length_lt100 n (by omega) h]

theorem pad2_all_digits (n : Nat) :
    ∀ c ∈ (pad2 n).data, c.isDigit = true := by
  rw [pad2_data]
  by_cases h : n < 10
  · simp only [h, if_true]
    intro c hc
    rcases List.mem_cons.1 hc with h1 | h1
    · rw [h1]; decide
    · exact natToDigits_all_digits n c h1
  · simp only [h, if_false]
    exact natToDigits_all_digits n

theorem pad4_length (n : Nat) (h : n < 10000) : (pad4 n).data.length = 4 := by
  unfold pad4 natToString
  by_cases h10 : n < 10
  · simp [h10, natToDigits_length_lt10 n h10]
  · by_cases h100 : n < 100
    · simp [h10, h100, natToDigits_length_lt100 n (by omega) h100]
    · by_cases h1000 : n < 1000
      · simp [h10, h100, h1000, natToDigits_length_lt1000 n (by omega) h1000]
      · simp [h10, h100, h1000, natToDigits_length_lt10000 n (by omega) h]

theorem fmtTimestamp_length (t : GoTime) (h : t.wf) :
    (fmtTimestamp t).data.length = 19 := by
  obtain ⟨hy, hmo, hd, hh, hmi, hs⟩ := h
  unfold fmtTimestamp
  simp [String.data_append, List.length_append, pad2_length _ hd, pad2_length _ hmo,
    pad4_length _ hy, pad2_length _ hh, pad2_length _ hmi, pad2_length _ hs]

/-! ### Extension and filename lemmas -/

theorem head?_eq_cons {l : List Char} {a : Char} (h : l.head? = some a) :
    ∃ r, l = a :: r := by
  cases l with
  | nil => simp at h
  | cons b r =>
    simp only [List.head?_cons, Option.some.injEq] at h
    exact ⟨r, by rw [h]⟩

theorem mediaExt_shape (e : String) (h : (isImageFile e || isVideoFile e) = true) :
    e.data.head? = some '.' ∧ (e.data.length = 4 ∨ e.data.length = 5) := by
  simp only [isImageFile, isVideoFile, Bool.or_eq_true, beq_iff_eq] at h
  rcases h with ((((((h | h) | h) | h) | h) | h) | h) |
    ((((((((h | h) | h) | h) | h) | h) | h) | h) | h) <;> subst h <;> decide

theorem digits_prefix_mismatch (p₁ p₂ s₁ s₂ : List Char)
    (h : p₁ ++ s₁ = p₂ ++ s₂) (hl : p₁.length < p₂.length)
    (hs : s₁.head? = some '.') (hp : ∀ c ∈ p₂, c.isDigit = true) : False := by
  obtain ⟨r, hr⟩ := head?_eq_cons hs
  have h1 : (p₁ ++ s₁)[p₁.length]? = some '.' := by
    rw [List.getElem?_append_right (Nat.le_refl _)]
    simp [hr]
  have h2 : (p₂ ++ s₂)[p₁.length]? = p₂[p₁.length]? := List.getElem?_append_left hl
  rw [h, h2] at h1
  obtain ⟨hlt, hget⟩ := List.getElem?_eq_some_iff.1 h1
  have hdig : ('.' : Char).isDigit = true := by
    rw [← hget]
    exact hp _ (List.getElem_mem hlt)
  exact absurd hdig (by decide)

theorem mkFileName_data_zero (T e : String) :
    (mkFileName T 0 e).data = T.data ++ e.data := by
  simp [mkFileName]

theorem mkFileName_data_pos (T e : String) (c : Nat) (h : 0 < c) :
    (mkFileName T c e).data = T.data ++ '-' :: ((pad2 c).data ++ e.data) := by
  have hdash : ("-" : String).data = ['-'] := rfl
  simp [mkFileName, h, hdash, List.append_assoc]

theorem mkFileName_ne (T₁ T₂ : String) (c₁ c₂ : Nat) (e₁ e₂ : String)
    (hL₁ : T₁.data.length = 19) (hL₂ : T₂.data.length = 19)
    (he₁ : (isImageFile e₁ || isVideoFile e₁) = true)
    (he₂ : (isImageFile e₂ || isVideoFile e₂) = true)
    (hne : T₁ ≠ T₂ ∨ c₁ ≠ c₂) :
    mkFileName T₁ c₁ e₁ ≠ mkFileName T₂ c₂ e₂ := by
  intro heq
  have hd := congrArg String.data heq
  have hlen : T₁.data.length = T₂.data.length := by rw [hL₁, hL₂]
  by_cases hc₁ : 0 < c₁ <;> by_cases hc₂ : 0 < c₂
  · rw [mkFileName_data_pos T₁ e₁ c₁ hc₁, mkFileName_data_pos T₂ e₂ c₂ hc₂] at hd
    obtain ⟨hT, htail⟩ := List.append_inj hd hlen
    rcases hne with hne | hne
    · exact hne (String.ext hT)
    · have hp : (pad2 c₁).data ++ e₁.data = (pad2 c₂).data ++ e₂.data :=
        (List.cons_eq_cons.1 htail).2
      rcases Nat.lt_trichotomy ((pad2 c₁).data.length) ((pad2 c₂).data.length) with hlt | hmid | hgt
      · exact digits_prefix_mismatch _ _ _ _ hp hlt (mediaExt_shape e₁ he₁).1 (pad2_all_digits c₂)
      · have hpeq : (pad2 c₁).data = (pad2 c₂).data := (List.append_inj hp hmid).1
        exact hne (pad2_inj (String.ext hpeq))
      · exact digits_prefix_mismatch _ _ _ _ hp.symm hgt (mediaExt_shape e₂ he₂).1 (pad2_all_digits c₁)
  · rw [mkFileName_data_pos T₁ e₁ c₁ hc₁, Nat.eq_zero_of_not_pos hc₂,
      mkFileName_data_zero T₂ e₂] at hd
    obtain ⟨hT, htail⟩ := List.append_inj hd hlen
    rcases hne with hne | hne
    · exact hne (String.ext hT)
    · obtain ⟨r, hr⟩ := head?_eq_cons (mediaExt_shape e₂ he₂).1
      rw [hr] at htail
      have : '-' = '.' := (List.cons_eq_cons.1 htail.symm).1.symm
      exact absurd this (by decide)
  · rw [mkFileName_data_pos T₂ e₂ c₂ hc₂, Nat.eq_zero_of_not_pos hc₁,
      mkFileName_data_zero T₁ e₁] at hd
    obtain ⟨hT, htail⟩ := List.append_inj hd hlen
    rcases hne with hne | hne
    · exact hne (String.ext hT)
    · obtain ⟨r, hr⟩ := head?_eq_cons (mediaExt_shape e₁ he₁).1
      rw [hr] at htail
      have : '.' = '-' := (List.cons_eq_cons.1 htail).1
      exact absurd this (by decide)
  · rcases hne with hne | hne
    · rw [Nat.eq_zero_of_not_pos hc₁, mkFileName_data_zero T₁ e₁,
        Nat.eq_zero_of_not_pos hc₂, mkFileName_data_zero T₂ e₂] at hd
      exact hne (String.ext (List.append_inj hd hlen).1)
    · exact hne (by omega)

/-! ### Step-level characterization lemmas -/

theorem stepFile_walkFail (t : String) (d : Bool) (st : PState) (f : WalkEntry)
    (e : String) (hw : f.walkErr = some e) :
    stepFile t d st f = (st, .walkFail f.path e, []) := by
  simp [stepFile, hw]

theorem stepFile_dirSkip (t : String) (d : Bool) (st : PState) (f : WalkEntry)
    (hw : f.walkErr = none) (hd : f.isDir = true) :
    stepFile t d st f = (st, .dirSkip f.path, []) := by
  simp [stepFile, hw, hd]

theorem stepFile_otherSkip (t : String) (d : Bool) (st : PState) (f : WalkEntry)
    (hw : f.walkErr = none) (hd : f.isDir = false)
    (hm : (isImageFile f.ext || isVideoFile f.ext) = false) :
    stepFile t d st f = (st, .otherSkip f.path, []) := by
  simp [stepFile, hw, hd, hm]

theorem stepFile_hashFail (t : String) (d : Bool) (st : PState) (f : WalkEntry)
    (e : String) (hw : f.walkErr = none) (hd : f.isDir = false)
    (hm : (isImageFile f.ext || isVideoFile f.ext) = true)
    (hh : f.hashResult = .error e) :
    stepFile t d st f = (st, .hashFail f.path e, []) := by
  simp [stepFile, hw, hd, hm, hh]

theorem stepFile_dup (t : String) (d : Bool) (st : PState) (f : WalkEntry)
    (hsh ex : String) (hw : f.walkErr = none) (hd : f.isDir = false)
    (hm : (isImageFile f.ext || isVideoFile f.ext) = true)
    (hh : f.hashResult = .ok hsh)
    (hlk : List.lookup hsh st.fileHashes = some ex) :
    stepFile t d st f =
      (st, .dupFound f.path ex (!d) (!d && f.removeErr.isNone),
        if !d && f.removeErr.isNone then [.removeFile f.path] else []) := by
  cases d with
  | false =>
    cases hre : f.removeErr with
    | none => simp [stepFile, hw, hd, hm, hh, hlk, hre]
    | some e => simp [stepFile, hw, hd, hm, hh, hlk, hre]
  | true => simp [stepFile, hw, hd, hm, hh, hlk]

theorem stepFile_new (t : String) (d : Bool) (st : PState) (f : WalkEntry)
    (hsh : String) (hw : f.walkErr = none) (hd : f.isDir = false)
    (hm : (isImageFile f.ext || isVideoFile f.ext) = true)
    (hh : f.hashResult = .ok hsh)
    (hlk : List.lookup hsh st.fileHashes = none) :
    stepFile t d st f = stepNew t d st f hsh := by
  simp [stepFile, hw, hd, hm, hh, hlk]

theorem stepNew_mkdirFail (t : String) (d : Bool) (st : PState) (f : WalkEntry)
    (hsh e : String) (hmk : f.mkdirErr = some e) :
    stepNew t d st f hsh =
      (⟨(hsh, f.path) :: st.fileHashes, st.timestampCounter⟩,
        .mkdirFail f.path (subDirOf t f) e, []) := by
  simp [stepNew, hmk]

theorem stepNew_dry (t : String) (st : PState) (f : WalkEntry)
    (hsh : String) (hmk : f.mkdirErr = none) :
    stepNew t true st f hsh =
      (⟨(hsh, f.path) :: st.fileHashes,
          (fmtTimestamp (resolvedDate f), nextIdx (fmtTimestamp (resolvedDate f)) st) ::
            st.timestampCounter⟩,
        .placed f.path (subDirOf t f) (fmtTimestamp (resolvedDate f))
          (nextIdx (fmtTimestamp (resolvedDate f)) st) f.ext (dateFellBack f) true,
        [.mkdirAll (subDirOf t f)]) := by
  simp [stepNew, hmk, nextIdx]

theorem stepNew_moveFail (t : String) (st : PState) (f : WalkEntry)
    (hsh e : String) (mops : List FsOp) (hmk : f.mkdirErr = none)
    (hmv : moveFile f.path
        (subDirOf t f ++ "/" ++
          mkFileName (fmtTimestamp (resolvedDate f)) (nextIdx (fmtTimestamp (resolvedDate f)) st) f.ext)
        f.moveEnv = (mops, some e)) :
    stepNew t false st f hsh =
      (⟨(hsh, f.path) :: st.fileHashes,
          (fmtTimestamp (resolvedDate f), nextIdx (fmtTimestamp (resolvedDate f)) st) ::
            st.timestampCounter⟩,
        .moveFail f.path
          (subDirOf t f ++ "/" ++
            mkFileName (fmtTimestamp (resolvedDate f)) (nextIdx (fmtTimestamp (resolvedDate f)) st) f.ext)
          e,
        .mkdirAll (subDirOf t f) :: mops) := by
  simp [stepNew, hmk, nextIdx] at hmv ⊢
  rw [hmv]

theorem stepNew_moved (t : String) (st : PState) (f : WalkEntry)
    (hsh : String) (mops : List FsOp) (hmk : f.mkdirErr = none)
    (hmv : moveFile f.path
        (subDirOf t f ++ "/" ++
          mkFileName (fmtTimestamp (resolvedDate f)) (nextIdx (fmtTimestamp (resolvedDate f)) st) f.ext)
        f.moveEnv = (mops, none)) :
    stepNew t false st f hsh =
      (⟨(hsh, f.path) :: st.fileHashes,
          (fmtTimestamp (resolvedDate f), nextIdx (fmtTimestamp (resolvedDate f)) st) ::
            st.timestampCounter⟩,
        .placed f.path (subDirOf t f) (fmtTimestamp (resolvedDate f))
          (nextIdx (fmtTimestamp (resolvedDate f)) st) f.ext (dateFellBack f) false,
        .mkdirAll (subDirOf t f) :: mops) := by
  simp [stepNew, hmk, nextIdx] at hmv ⊢
  rw [hmv]

theorem runFiles_nil (t : String) (d : Bool) (st : PState) :
    runFiles t d st [] = ⟨st, [], [], none⟩ := rfl

theorem runFiles_cons_fatal (t : String) (d : Bool) (st : PState)
    (f : WalkEntry) (fs : List WalkEntry) (e : String)
    (hf : (stepFile t d st f).2.1.fatalErr = some e) :
    runFiles t d st (f :: fs) =
      ⟨(stepFile t d st f).1, [(stepFile t d st f).2.1], (stepFile t d st f).2.2, some e⟩ := by
  simp only [runFiles]
  split
  · rename_i e2 heq
    rw [heq] at hf
    injection hf with hf
    subst hf
    rfl
  · rename_i heq
    rw [heq] at hf
    cases hf

theorem runFiles_cons_ok (t : String) (d : Bool) (st : PState)
    (f : WalkEntry) (fs : List WalkEntry)
    (hf : (stepFile t d st f).2.1.fatalErr = none) :
    runFiles t d st (f :: fs) =
      ⟨(runFiles t d (stepFile t d st f).1 fs).state,
        (stepFile t d st f).2.1 :: (runFiles t d (stepFile t d st f).1 fs).outcomes,
        (stepFile t d st f).2.2 ++ (runFiles t d (stepFile t d st f).1 fs).ops,
        (runFiles t d (stepFile t d st f).1 fs).err⟩ := by
  simp only [runFiles]
  split
  · rename_i e2 heq
    rw [heq] at hf
    cases hf
  · rfl

theorem runFiles_cons_of_step (t : String) (d : Bool) (st : PState)
    (f : WalkEntry) (fs : List WalkEntry) (st2 : PState) (o : Outcome)
    (ops : List FsOp) (hstep : stepFile t d st f = (st2, o, ops))
    (hnf : o.fatalErr = none) :
    runFiles t d st (f :: fs) =
      ⟨(runFiles t d st2 fs).state, o :: (runFiles t d st2 fs).outcomes,
        ops ++ (runFiles t d st2 fs).ops, (runFiles t d st2 fs).err⟩ := by
  rw [runFiles_cons_ok t d st f fs (by rw [hstep]; exact hnf), hstep]

theorem runFiles_cons_of_step_fatal (t : String) (d : Bool) (st : PState)
    (f : WalkEntry) (fs : List WalkEntry) (st2 : PState) (o : Outcome)
    (ops : List FsOp) (e : String) (hstep : stepFile t d st f = (st2, o, ops))
    (hf : o.fatalErr = some e) :
    runFiles t d st (f :: fs) = ⟨st2, [o], ops, some e⟩ := by
  rw [runFiles_cons_fatal t d st f fs e (by rw [hstep]; exact hf), hstep]

theorem runFiles_append_ok (t : String) (d : Bool) (pre post : List WalkEntry) :
    ∀ st : PState, (runFiles t d st pre).err = none →
      runFiles t d st (pre ++ post) =
        ⟨(runFiles t d (runFiles t d st pre).state post).state,
          (runFiles t d st pre).outcomes ++ (runFiles t d (runFiles t d st pre).state post).outcomes,
          (runFiles t d st pre).ops ++ (runFiles t d (runFiles t d st pre).state post).ops,
          (runFiles t d (runFiles t d st pre).state post).err⟩ := by
  induction pre with
  | nil => intro st _; simp [runFiles_nil]
  | cons f fs ih =>
    intro st hok
    cases hf : (stepFile t d st f).2.1.fatalErr with
    | some e =>
      rw [runFiles_cons_fatal t d st f fs e hf] at hok
      simp at hok
    | none =>
      rw [runFiles_cons_ok t d st f fs hf] at hok
      dsimp only at hok
      rw [List.cons_append, runFiles_cons_ok t d st f (fs ++ post) hf,
        runFiles_cons_ok t d st f fs hf, ih (stepFile t d st f).1 hok]
      dsimp only
      rw [List.cons_append, List.append_assoc]

theorem runFiles_append_fatal (t : String) (d : Bool) (pre post : List WalkEntry) :
    ∀ st : PState, (runFiles t d st pre).err.isSome = true →
      runFiles t d st (pre ++ post) = runFiles t d st pre := by
  induction pre with
  | nil => intro st h; rw [runFiles_nil] at h; simp at h
  | cons f fs ih =>
    intro st h
    cases hf : (stepFile t d st f).2.1.fatalErr with
    | some e =>
      rw [List.cons_append, runFiles_cons_fatal t d st f (fs ++ post) e hf,
        runFiles_cons_fatal t d st f fs e hf]
    | none =>
      rw [runFiles_cons_ok t d st f fs hf] at h
      dsimp only at h
      rw [List.cons_append, runFiles_cons_ok t d st f (fs ++ post) hf,
        runFiles_cons_ok t d st f fs hf, ih (stepFile t d st f).1 h]

theorem runFiles_length_of_ok (t : String) (d : Bool) (files : List WalkEntry) :
    ∀ st : PState, (runFiles t d st files).err = none →
      (runFiles t d st files).outcomes.length = files.length := by
  induction files with
  | nil => intro st _; rw [runFiles_nil]; rfl
  | cons f fs ih =>
    intro st hok
    cases hf : (stepFile t d st f).2.1.fatalErr with
    | some e =>
      rw [runFiles_cons_fatal t d st f fs e hf] at hok
      simp at hok
    | none =>
      rw [runFiles_cons_ok t d st f fs hf] at hok ⊢
      dsimp only at hok ⊢
      rw [List.length_cons, ih (stepFile t d st f).1 hok, List.length_cons]

theorem stepFile_shape (t : String) (d : Bool) (st : PState) (f : WalkEntry) :
    (∃ e, f.walkErr = some e ∧ stepFile t d st f = (st, .walkFail f.path e, []))
    ∨ (f.walkErr = none ∧ f.isDir = true ∧
        stepFile t d st f = (st, .dirSkip f.path, []))
    ∨ (f.walkErr = none ∧ f.isDir = false ∧
        (isImageFile f.ext || isVideoFile f.ext) = false ∧
        stepFile t d st f = (st, .otherSkip f.path, []))
    ∨ (∃ e, f.walkErr = none ∧ f.isDir = false ∧
        (isImageFile f.ext || isVideoFile f.ext) = true ∧
        f.hashResult = .error e ∧
        stepFile t d st f = (st, .hashFail f.path e, []))
    ∨ (∃ hsh ex, f.walkErr = none ∧ f.isDir = false ∧
        (isImageFile f.ext || isVideoFile f.ext) = true ∧
        f.hashResult = .ok hsh ∧ List.lookup hsh st.fileHashes = some ex ∧
        stepFile t d st f =
          (st, .dupFound f.path ex (!d) (!d && f.removeErr.isNone),
            if !d && f.removeErr.isNone then [.removeFile f.path] else []))
    ∨ (∃ hsh e, f.walkErr = none ∧ f.isDir = false ∧
        (isImageFile f.ext || isVideoFile f.ext) = true ∧
        f.hashResult = .ok hsh ∧ List.lookup hsh st.fileHashes = none ∧
        f.mkdirErr = some e ∧
        stepFile t d st f =
          (⟨(hsh, f.path) :: st.fileHashes, st.timestampCounter⟩,
            .mkdirFail f.path (subDirOf t f) e, []))
    ∨ (∃ hsh, f.walkErr = none ∧ f.isDir = false ∧
        (isImageFile f.ext || isVideoFile f.ext) = true ∧
        f.hashResult = .ok hsh ∧ List.lookup hsh st.fileHashes = none ∧
        f.mkdirErr = none ∧ d = true ∧
        stepFile t d st f =
          (⟨(hsh, f.path) :: st.fileHashes,
              (fmtTimestamp (resolvedDate f), nextIdx (fmtTimestamp (resolvedDate f)) st) ::
                st.timestampCounter⟩,
            .placed f.path (subDirOf t f) (fmtTimestamp (resolvedDate f))
              (nextIdx (fmtTimestamp (resolvedDate f)) st) f.ext (dateFellBack f) true,
            [.mkdirAll (subDirOf t f)]))
    ∨ (∃ hsh mops e, f.walkErr = none ∧ f.isDir = false ∧
        (isImageFile f.ext || isVideoFile f.ext) = true ∧
        f.hashResult = .ok hsh ∧ List.lookup hsh st.fileHashes = none ∧
        f.mkdirErr = none ∧ d = false ∧
        moveFile f.path
          (subDirOf t f ++ "/" ++
            mkFileName (fmtTimestamp (resolvedDate f))
              (nextIdx (fmtTimestamp (resolvedDate f)) st) f.ext) f.moveEnv = (mops, some e) ∧
        stepFile t d st f =
          (⟨(hsh, f.path) :: st.fileHashes,
              (fmtTimestamp (resolvedDate f), nextIdx (fmtTimestamp (resolvedDate f)) st) ::
                st.timestampCounter⟩,
            .moveFail f.path
              (subDirOf t f ++ "/" ++
                mkFileName (fmtTimestamp (resolvedDate f))
                  (nextIdx (fmtTimestamp (resolvedDate f)) st) f.ext) e,
            .mkdirAll (subDirOf t f) :: mops))
    ∨ (∃ hsh mops, f.walkErr = none ∧ f.isDir = false ∧
        (isImageFile f.ext || isVideoFile f.ext) = true ∧
        f.hashResult = .ok hsh ∧ List.lookup hsh st.fileHashes = none ∧
        f.mkdirErr = none ∧ d = false ∧
        moveFile f.path
          (subDirOf t f ++ "/" ++
            mkFileName (fmtTimestamp (resolvedDate f))
              (nextIdx (fmtTimestamp (resolvedDate f)) st) f.ext) f.moveEnv = (mops, none) ∧
        stepFile t d st f =
          (⟨(hsh, f.path) :: st.fileHashes,
              (fmtTimestamp (resolvedDate f), nextIdx (fmtTimestamp (resolvedDate f)) st) ::
                st.timestampCounter⟩,
            .placed f.path (subDirOf t f) (fmtTimestamp (resolvedDate f))
              (nextIdx (fmtTimestamp (resolvedDate f)) st) f.ext (dateFellBack f) false,
            .mkdirAll (subDirOf t f) :: mops)) := by
  cases hw : f.walkErr with
  | some e => exact Or.inl ⟨e, rfl, stepFile_walkFail t d st f e hw⟩
  | none =>
    cases hd : f.isDir with
    | true => exact Or.inr (Or.inl ⟨rfl, rfl, stepFile_dirSkip t d st f hw hd⟩)
    | false =>
      cases hm : (isImageFile f.ext || isVideoFile f.ext) with
      | false =>
        exact Or.inr (Or.inr (Or.inl ⟨rfl, rfl, rfl, stepFile_otherSkip t d st f hw hd hm⟩))
      | true =>
        cases hh : f.hashResult with
        | error e =>
          exact Or.inr (Or.inr (Or.inr (Or.inl
            ⟨e, rfl, rfl, rfl, rfl, stepFile_hashFail t d st f e hw hd hm hh⟩)))
        | ok hsh =>
          cases hlk : List.lookup hsh st.fileHashes with
          | some ex =>
            exact Or.inr (Or.inr (Or.inr (Or.inr (Or.inl
              ⟨hsh, ex, rfl, rfl, rfl, rfl, hlk, stepFile_dup t d st f hsh ex hw hd hm hh hlk⟩))))
          | none =>
            have hnew := stepFile_new t d st f hsh hw hd hm hh hlk
            cases hmk : f.mkdirErr with
            | some e =>
              refine Or.inr (Or.inr (Or.inr (Or.inr (Or.inr (Or.inl
                ⟨hsh, e, rfl, rfl, rfl, rfl, hlk, rfl, ?_⟩)))))
              rw [hnew, stepNew_mkdirFail t d st f hsh e hmk]
            | none =>
              cases d with
              | true =>
                refine Or.inr (Or.inr (Or.inr (Or.inr (Or.inr (Or.inr (Or.inl
                  ⟨hsh, rfl, rfl, rfl, rfl, hlk, rfl, rfl, ?_⟩))))))
                rw [hnew, stepNew_dry t st f hsh hmk]
              | false =>
                rcases hmv : moveFile f.path
                    (subDirOf t f ++ "/" ++
                      mkFileName (fmtTimestamp (resolvedDate f))
                        (nextIdx (fmtTimestamp (resolvedDate f)) st) f.ext) f.moveEnv
                  with ⟨mops, merr⟩
                cases merr with
                | some e =>
                  refine Or.inr (Or.inr (Or.inr (Or.inr (Or.inr (Or.inr (Or.inr (Or.inl
                    ⟨hsh, mops, e, rfl, rfl, rfl, rfl, hlk, rfl, rfl, rfl, ?_⟩)))))))
                  rw [hnew, stepNew_moveFail t st f hsh e mops hmk hmv]
                | none =>
                  refine Or.inr (Or.inr (Or.inr (Or.inr (Or.inr (Or.inr (Or.inr (Or.inr
                    ⟨hsh, mops, rfl, rfl, rfl, rfl, hlk, rfl, rfl, rfl, ?_⟩)))))))
                  rw [hnew, stepNew_moved t st f hsh mops hmk hmv]

theorem runFiles_lookup_hash (t : String) (d : Bool) (h : String) :
    ∀ (files : List WalkEntry) (st : PState),
      (runFiles t d st files).err = none →
      List.lookup h (runFiles t d st files).state.fileHashes =
        (match List.lookup h st.fileHashes with
          | some p => some p
          | none => firstWithHash h files) := by
  intro files
  induction files with
  | nil =>
    intro st _
    rw [runFiles_nil]
    dsimp only
    cases List.lookup h st.fileHashes <;> simp [firstWithHash]
  | cons f fs ih =>
    intro st hok
    rcases stepFile_shape t d st f with
      ⟨e, hw, hstep⟩ | ⟨hw, hd, hstep⟩ | ⟨hw, hd, hm, hstep⟩ | ⟨e, hw, hd, hm, hh, hstep⟩ |
      ⟨hsh, ex, hw, hd, hm, hh, hlk, hstep⟩ | ⟨hsh, e, hw, hd, hm, hh, hlk, hmk, hstep⟩ |
      ⟨hsh, hw, hd, hm, hh, hlk, hmk, hdry, hstep⟩ |
      ⟨hsh, mops, e, hw, hd, hm, hh, hlk, hmk, hdry, hmv, hstep⟩ |
      ⟨hsh, mops, hw, hd, hm, hh, hlk, hmk, hdry, hmv, hstep⟩
    · rw [runFiles_cons_of_step_fatal t d st f fs _ _ _ e hstep rfl] at hok
      simp at hok
    · rw [runFiles_cons_of_step t d st f fs _ _ _ hstep rfl] at hok ⊢
      dsimp only at hok ⊢
      rw [ih st hok]
      have hfw : firstWithHash h (f :: fs) = firstWithHash h fs := by
        simp [firstWithHash, isMediaEntry, hd]
      rw [hfw]
    · rw [runFiles_cons_of_step t d st f fs _ _ _ hstep rfl] at hok ⊢
      dsimp only at hok ⊢
      rw [ih st hok]
      have hfw : firstWithHash h (f :: fs) = firstWithHash h fs := by
        simp [firstWithHash, isMediaEntry, hm]
      rw [hfw]
    · rw [runFiles_cons_of_step_fatal t d st f fs _ _ _ e hstep rfl] at hok
      simp at hok
    · rw [runFiles_cons_of_step t d st f fs _ _ _ hstep rfl] at hok ⊢
      dsimp only at hok ⊢
      rw [ih st hok]
      by_cases heq : h = hsh
      · subst heq
        simp only [hlk]
      · have hbf : (hashOf f == some h) = false := by
          have hco : hashOf f = some hsh := by simp [hashOf, hh]
          rw [hco]
          exact beq_eq_false_iff_ne.2 (fun hc => heq (Option.some.inj hc).symm)
        cases hst : List.lookup h st.fileHashes with
        | some p => rfl
        | none =>
          dsimp only
          have hfw : firstWithHash h (f :: fs) = firstWithHash h fs := by
            simp [firstWithHash, hbf]
          rw [hfw]
    · rw [runFiles_cons_of_step_fatal t d st f fs _ _ _ e hstep rfl] at hok
      simp at hok
    · rw [runFiles_cons_of_step t d st f fs _ _ _ hstep rfl] at hok ⊢
      dsimp only at hok ⊢
      rw [ih _ hok]
      dsimp only
      by_cases heq : h = hsh
      · subst heq
        have hcons : List.lookup h ((h, f.path) :: st.fileHashes) = some f.path := by
          simp [List.lookup]
        have hfw : firstWithHash h (f :: fs) = some f.path := by
          simp [firstWithHash, isMediaEntry, hw, hd, hm, hashOf, hh]
        rw [hcons, hlk, hfw]
      · have hbq : (h == hsh) = false := beq_eq_false_iff_ne.2 heq
        have hbf : (hashOf f == some h) = false := by
          have hco : hashOf f = some hsh := by simp [hashOf, hh]
          rw [hco]
          exact beq_eq_false_iff_ne.2 (fun hc => heq (Option.some.inj hc).symm)
        have hcons : List.lookup h ((hsh, f.path) :: st.fileHashes) =
            List.lookup h st.fileHashes := by
          simp [List.lookup, hbq]
        rw [hcons]
        cases hst : List.lookup h st.fileHashes with
        | some p => rfl
        | none =>
          dsimp only
          have hfw : firstWithHash h (f :: fs) = firstWithHash h fs := by
            simp [firstWithHash, hbf]
          rw [hfw]
    · rw [runFiles_cons_of_step_fatal t d st f fs _ _ _ e hstep rfl] at hok
      simp at hok
    · rw [runFiles_cons_of_step t d st f fs _ _ _ hstep rfl] at hok ⊢
      dsimp only at hok ⊢
      rw [ih _ hok]
      dsimp only
      by_cases heq : h = hsh
      · subst heq
        have hcons : List.lookup h ((h, f.path) :: st.fileHashes) = some f.path := by
          simp [List.lookup]
        have hfw : firstWithHash h (f :: fs) = some f.path := by
          simp [firstWithHash, isMediaEntry, hw, hd, hm, hashOf, hh]
        rw [hcons, hlk, hfw]
      · have hbq : (h == hsh) = false := beq_eq_false_iff_ne.2 heq
        have hbf : (hashOf f == some h) = false := by
          have hco : hashOf f = some hsh := by simp [hashOf, hh]
          rw [hco]
          exact beq_eq_false_iff_ne.2 (fun hc => heq (Option.some.inj hc).symm)
        have hcons : List.lookup h ((hsh, f.path) :: st.fileHashes) =
            List.lookup h st.fileHashes := by
          simp [List.lookup, hbq]
        rw [hcons]
        cases hst : List.lookup h st.fileHashes with
        | some p => rfl
        | none =>
          dsimp only
          have hfw : firstWithHash h (f :: fs) = firstWithHash h fs := by
            simp [firstWithHash, hbf]
          rw [hfw]

theorem placedWithTs_nil (T : String) : placedWithTs T [] = [] := rfl

theorem placedWithTs_cons_placed_eq (T : String) (os : List Outcome)
    (p sub : String) (c : Nat) (e : String) (fb dr : Bool) :
    placedWithTs T (.placed p sub T c e fb dr :: os) = (c, e) :: placedWithTs T os := by
  simp [placedWithTs]

theorem placedWithTs_cons_placed_ne (T ts : String) (os : List Outcome)
    (p sub : String) (c : Nat) (e : String) (fb dr : Bool) (hne : ts ≠ T) :
    placedWithTs T (.placed p sub ts c e fb dr :: os) = placedWithTs T os := by
  simp [placedWithTs, hne]

theorem nextIdx_cons_eq (T : String) (c : Nat) (fh : List (String × String))
    (tc : List (String × Nat)) :
    nextIdx T ⟨fh, (T, c) :: tc⟩ = c + 1 := by
  simp [nextIdx, List.lookup]

theorem nextIdx_cons_ne (T ts : String) (c : Nat) (fh : List (String × String))
    (tc : List (String × Nat)) (hne : ts ≠ T) :
    nextIdx T ⟨fh, (ts, c) :: tc⟩ = nextIdx T ⟨fh, tc⟩ := by
  have hbq : (T == ts) = false := beq_eq_false_iff_ne.2 (fun hc => hne hc.symm)
  simp [nextIdx, List.lookup, hbq]

theorem nextIdx_fileHashes_irrel (T : String) (fh fh2 : List (String × String))
    (tc : List (String × Nat)) :
    nextIdx T ⟨fh, tc⟩ = nextIdx T ⟨fh2, tc⟩ := rfl

theorem runFiles_placedWithTs (t : String) (d : Bool) (T : String) :
    ∀ (files : List WalkEntry) (st : PState),
      (placedWithTs T (runFiles t d st files).outcomes).map Prod.fst =
        List.range' (nextIdx T st)
          (placedWithTs T (runFiles t d st files).outcomes).length := by
  intro files
  induction files with
  | nil => intro st; rw [runFiles_nil]; rfl
  | cons f fs ih =>
    intro st
    rcases stepFile_shape t d st f with
      ⟨e, hw, hstep⟩ | ⟨hw, hd, hstep⟩ | ⟨hw, hd, hm, hstep⟩ | ⟨e, hw, hd, hm, hh, hstep⟩ |
      ⟨hsh, ex, hw, hd, hm, hh, hlk, hstep⟩ | ⟨hsh, e, hw, hd, hm, hh, hlk, hmk, hstep⟩ |
      ⟨hsh, hw, hd, hm, hh, hlk, hmk, hdry, hstep⟩ |
      ⟨hsh, mops, e, hw, hd, hm, hh, hlk, hmk, hdry, hmv, hstep⟩ |
      ⟨hsh, mops, hw, hd, hm, hh, hlk, hmk, hdry, hmv, hstep⟩
    · rw [runFiles_cons_of_step_fatal t d st f fs _ _ _ e hstep rfl]
      rfl
    · rw [runFiles_cons_of_step t d st f fs _ _ _ hstep rfl]
      dsimp only
      rw [show placedWithTs T (Outcome.dirSkip f.path :: (runFiles t d st fs).outcomes) =
        placedWithTs T (runFiles t d st fs).outcomes from by simp [placedWithTs]]
      exact ih st
    · rw [runFiles_cons_of_step t d st f fs _ _ _ hstep rfl]
      dsimp only
      rw [show placedWithTs T (Outcome.otherSkip f.path :: (runFiles t d st fs).outcomes) =
        placedWithTs T (runFiles t d st fs).outcomes from by simp [placedWithTs]]
      exact ih st
    · rw [runFiles_cons_of_step_fatal t d st f fs _ _ _ e hstep rfl]
      rfl
    · rw [runFiles_cons_of_step t d st f fs _ _ _ hstep rfl]
      dsimp only
      rw [show placedWithTs T
          (Outcome.dupFound f.path ex (!d) (!d && f.removeErr.isNone) ::
            (runFiles t d st fs).outcomes) =
        placedWithTs T (runFiles t d st fs).outcomes from by simp [placedWithTs]]
      exact ih st
    · rw [runFiles_cons_of_step_fatal t d st f fs _ _ _ e hstep rfl]
      rfl
    · rw [runFiles_cons_of_step t d st f fs _ _ _ hstep rfl]
      dsimp only
      by_cases hT : fmtTimestamp (resolvedDate f) = T
      · subst hT
        rw [placedWithTs_cons_placed_eq]
        simp only [List.map_cons, List.length_cons]
        rw [List.range'_succ]
        have hni := nextIdx_cons_eq (fmtTimestamp (resolvedDate f))
          (nextIdx (fmtTimestamp (resolvedDate f)) st) ((hsh, f.path) :: st.fileHashes)
          st.timestampCounter
        have := ih ⟨(hsh, f.path) :: st.fileHashes,
          (fmtTimestamp (resolvedDate f), nextIdx (fmtTimestamp (resolvedDate f)) st) ::
            st.timestampCounter⟩
        rw [hni] at this
        rw [this]
      · rw [placedWithTs_cons_placed_ne _ _ _ _ _ _ _ _ _ hT]
        have hni := nextIdx_cons_ne T (fmtTimestamp (resolvedDate f))
          (nextIdx (fmtTimestamp (resolvedDate f)) st) ((hsh, f.path) :: st.fileHashes)
          st.timestampCounter hT
        have := ih ⟨(hsh, f.path) :: st.fileHashes,
          (fmtTimestamp (resolvedDate f), nextIdx (fmtTimestamp (resolvedDate f)) st) ::
            st.timestampCounter⟩
        rw [hni] at this
        exact this
    · rw [runFiles_cons_of_step_fatal t d st f fs _ _ _ e hstep rfl]
      rfl
    · rw [runFiles_cons_of_step t d st f fs _ _ _ hstep rfl]
      dsimp only
      by_cases hT : fmtTimestamp (resolvedDate f) = T
      · subst hT
        rw [placedWithTs_cons_placed_eq]
        simp only [List.map_cons, List.length_cons]
        rw [List.range'_succ]
        have hni := nextIdx_cons_eq (fmtTimestamp (resolvedDate f))
          (nextIdx (fmtTimestamp (resolvedDate f)) st) ((hsh, f.path) :: st.fileHashes)
          st.timestampCounter
        have := ih ⟨(hsh, f.path) :: st.fileHashes,
          (fmtTimestamp (resolvedDate f), nextIdx (fmtTimestamp (resolvedDate f)) st) ::
            st.timestampCounter⟩
        rw [hni] at this
        rw [this]
      · rw [placedWithTs_cons_placed_ne _ _ _ _ _ _ _ _ _ hT]
        have hni := nextIdx_cons_ne T (fmtTimestamp (resolvedDate f))
          (nextIdx (fmtTimestamp (resolvedDate f)) st) ((hsh, f.path) :: st.fileHashes)
          st.timestampCounter hT
        have := ih ⟨(hsh, f.path) :: st.fileHashes,
          (fmtTimestamp (resolvedDate f), nextIdx (fmtTimestamp (resolvedDate f)) st) ::
            st.timestampCounter⟩
        rw [hni] at this
        exact this

theorem runFiles_counter_lb (t : String) (d : Bool) (T : String) :
    ∀ (files : List WalkEntry) (st : PState) (p sub : String) (c : Nat)
      (e : String) (fb dr : Bool),
      Outcome.placed p sub T c e fb dr ∈ (runFiles t d st files).outcomes →
      nextIdx T st ≤ c := by
  intro files
  induction files with
  | nil =>
    intro st p sub c e fb dr hmem
    rw [runFiles_nil] at hmem
    simp at hmem
  | cons f fs ih =>
    intro st p sub c e fb dr hmem
    rcases stepFile_shape t d st f with
      ⟨e2, hw, hstep⟩ | ⟨hw, hd, hstep⟩ | ⟨hw, hd, hm, hstep⟩ | ⟨e2, hw, hd, hm, hh, hstep⟩ |
      ⟨hsh, ex, hw, hd, hm, hh, hlk, hstep⟩ | ⟨hsh, e2, hw, hd, hm, hh, hlk, hmk, hstep⟩ |
      ⟨hsh, hw, hd, hm, hh, hlk, hmk, hdry, hstep⟩ |
      ⟨hsh, mops, e2, hw, hd, hm, hh, hlk, hmk, hdry, hmv, hstep⟩ |
      ⟨hsh, mops, hw, hd, hm, hh, hlk, hmk, hdry, hmv, hstep⟩
    · rw [runFiles_cons_of_step_fatal t d st f fs _ _ _ e2 hstep rfl] at hmem
      simp at hmem
    · rw [runFiles_cons_of_step t d st f fs _ _ _ hstep rfl] at hmem
      dsimp only at hmem
      rcases List.mem_cons.1 hmem with hmem | hmem
      · cases hmem
      · exact ih st p sub c e fb dr hmem
    · rw [runFiles_cons_of_step t d st f fs _ _ _ hstep rfl] at hmem
      dsimp only at hmem
      rcases List.mem_cons.1 hmem with hmem | hmem
      · cases hmem
      · exact ih st p sub c e fb dr hmem
    · rw [runFiles_cons_of_step_fatal t d st f fs _ _ _ e2 hstep rfl] at hmem
      simp at hmem
    · rw [runFiles_cons_of_step t d st f fs _ _ _ hstep rfl] at hmem
      dsimp only at hmem
      rcases List.mem_cons.1 hmem with hmem | hmem
      · cases hmem
      · exact ih st p sub c e fb dr hmem
    · rw [runFiles_cons_of_step_fatal t d st f fs _ _ _ e2 hstep rfl] at hmem
      simp at hmem
    · rw [runFiles_cons_of_step t d st f fs _ _ _ hstep rfl] at hmem
      dsimp only at hmem
      rcases List.mem_cons.1 hmem with hmem | hmem
      · injection hmem with h1 h2 h3 h4 h5 h6 h7
        subst h3
        omega
      · by_cases hT : fmtTimestamp (resolvedDate f) = T
        · subst hT
          have := ih _ p sub c e fb dr hmem
          rw [nextIdx_cons_eq] at this
          omega
        · have := ih _ p sub c e fb dr hmem
          rw [nextIdx_cons_ne T _ _ _ _ hT] at this
          exact this
    · rw [runFiles_cons_of_step_fatal t d st f fs _ _ _ e2 hstep rfl] at hmem
      simp at hmem
    · rw [runFiles_cons_of_step t d st f fs _ _ _ hstep rfl] at hmem
      dsimp only at hmem
      rcases List.mem_cons.1 hmem with hmem | hmem
      · injection hmem with h1 h2 h3 h4 h5 h6 h7
        subst h3
        omega
      · by_cases hT : fmtTimestamp (resolvedDate f) = T
        · subst hT
          have := ih _ p sub c e fb dr hmem
          rw [nextIdx_cons_eq] at this
          omega
        · have := ih _ p sub c e fb dr hmem
          rw [nextIdx_cons_ne T _ _ _ _ hT] at this
          exact this

theorem runFiles_counter_pairwise (t : String) (d : Bool) (T : String) :
    ∀ (files : List WalkEntry) (st : PState),
      ((runFiles t d st files).outcomes).Pairwise (fun o₁ o₂ =>
        ∀ p₁ s₁ c₁ e₁ fb₁ d₁ p₂ s₂ c₂ e₂ fb₂ d₂,
          o₁ = .placed p₁ s₁ T c₁ e₁ fb₁ d₁ → o₂ = .placed p₂ s₂ T c₂ e₂ fb₂ d₂ →
          c₁ < c₂) := by
  intro files
  induction files with
  | nil => intro st; rw [runFiles_nil]; exact List.Pairwise.nil
  | cons f fs ih =>
    intro st
    rcases stepFile_shape t d st f with
      ⟨e2, hw, hstep⟩ | ⟨hw, hd, hstep⟩ | ⟨hw, hd, hm, hstep⟩ | ⟨e2, hw, hd, hm, hh, hstep⟩ |
      ⟨hsh, ex, hw, hd, hm, hh, hlk, hstep⟩ | ⟨hsh, e2, hw, hd, hm, hh, hlk, hmk, hstep⟩ |
      ⟨hsh, hw, hd, hm, hh, hlk, hmk, hdry, hstep⟩ |
      ⟨hsh, mops, e2, hw, hd, hm, hh, hlk, hmk, hdry, hmv, hstep⟩ |
      ⟨hsh, mops, hw, hd, hm, hh, hlk, hmk, hdry, hmv, hstep⟩
    · rw [runFiles_cons_of_step_fatal t d st f fs _ _ _ e2 hstep rfl]
      exact List.pairwise_singleton _ _
    · rw [runFiles_cons_of_step t d st f fs _ _ _ hstep rfl]
      dsimp only
      refine List.Pairwise.cons ?_ (ih st)
      intro o' _ p₁ s₁ c₁ e₁ fb₁ d₁ p₂ s₂ c₂ e₂ fb₂ d₂ h1 _
      cases h1
    · rw [runFiles_cons_of_step t d st f fs _ _ _ hstep rfl]
      dsimp only
      refine List.Pairwise.cons ?_ (ih st)
      intro o' _ p₁ s₁ c₁ e₁ fb₁ d₁ p₂ s₂ c₂ e₂ fb₂ d₂ h1 _
      cases h1
    · rw [runFiles_cons_of_step_fatal t d st f fs _ _ _ e2 hstep rfl]
      exact List.pairwise_singleton _ _
    · rw [runFiles_cons_of_step t d st f fs _ _ _ hstep rfl]
      dsimp only
      refine List.Pairwise.cons ?_ (ih st)
      intro o' _ p₁ s₁ c₁ e₁ fb₁ d₁ p₂ s₂ c₂ e₂ fb₂ d₂ h1 _
      cases h1
    · rw [runFiles_cons_of_step_fatal t d st f fs _ _ _ e2 hstep rfl]
      exact List.pairwise_singleton _ _
    · rw [runFiles_cons_of_step t d st f fs _ _ _ hstep rfl]
      dsimp only
      refine List.Pairwise.cons ?_ (ih _)
      intro o' hmem p₁ s₁ c₁ e₁ fb₁ d₁ p₂ s₂ c₂ e₂ fb₂ d₂ h1 h2
      injection h1 with g1 g2 g3 g4 g5 g6 g7
      subst h2
      have hlb := runFiles_counter_lb t d T fs _ p₂ s₂ c₂ e₂ fb₂ d₂ hmem
      rw [← g3] at hlb
      rw [nextIdx_cons_eq] at hlb
      omega
    · rw [runFiles_cons_of_step_fatal t d st f fs _ _ _ e2 hstep rfl]
      exact List.pairwise_singleton _ _
    · rw [runFiles_cons_of_step t d st f fs _ _ _ hstep rfl]
      dsimp only
      refine List.Pairwise.cons ?_ (ih _)
      intro o' hmem p₁ s₁ c₁ e₁ fb₁ d₁ p₂ s₂ c₂ e₂ fb₂ d₂ h1 h2
      injection h1 with g1 g2 g3 g4 g5 g6 g7
      subst h2
      have hlb := runFiles_counter_lb t d T fs _ p₂ s₂ c₂ e₂ fb₂ d₂ hmem
      rw [← g3] at hlb
      rw [nextIdx_cons_eq] at hlb
      omega

theorem runFiles_placed_shape (t : String) (d : Bool) :
    ∀ (files : List WalkEntry) (st : PState),
      (∀ f ∈ files, (resolvedDate f).wf) →
      ∀ o ∈ (runFiles t d st files).outcomes,
        ∀ p sub ts c e fb dr, o = Outcome.placed p sub ts c e fb dr →
          (isImageFile e || isVideoFile e) = true ∧
          ∃ gt : GoTime, gt.wf ∧ ts = fmtTimestamp gt ∧
            sub = t ++ "/" ++ (if isImageFile e then "images" else "videos") ++ "/" ++
              pad4 gt.year ++ "/" ++ pad2 gt.month := by
  intro files
  induction files with
  | nil =>
    intro st _ o hmem
    rw [runFiles_nil] at hmem
    simp at hmem
  | cons f fs ih =>
    intro st hwf o hmem
    have hwff : (resolvedDate f).wf := hwf f (List.mem_cons_self f fs)
    have hwfs : ∀ g ∈ fs, (resolvedDate g).wf := fun g hg => hwf g (List.mem_cons_of_mem f hg)
    rcases stepFile_shape t d st f with
      ⟨e2, hw, hstep⟩ | ⟨hw, hd, hstep⟩ | ⟨hw, hd, hm, hstep⟩ | ⟨e2, hw, hd, hm, hh, hstep⟩ |
      ⟨hsh, ex, hw, hd, hm, hh, hlk, hstep⟩ | ⟨hsh, e2, hw, hd, hm, hh, hlk, hmk, hstep⟩ |
      ⟨hsh, hw, hd, hm, hh, hlk, hmk, hdry, hstep⟩ |
      ⟨hsh, mops, e2, hw, hd, hm, hh, hlk, hmk, hdry, hmv, hstep⟩ |
      ⟨hsh, mops, hw, hd, hm, hh, hlk, hmk, hdry, hmv, hstep⟩
    · rw [runFiles_cons_of_step_fatal t d st f fs _ _ _ e2 hstep rfl] at hmem
      intro p sub ts c e fb dr ho
      rcases List.mem_singleton.1 hmem with hmem2
      rw [hmem2] at ho
      cases ho
    · rw [runFiles_cons_of_step t d st f fs _ _ _ hstep rfl] at hmem
      dsimp only at hmem
      rcases List.mem_cons.1 hmem with hmem | hmem
      · intro p sub ts c e fb dr ho; rw [hmem] at ho; cases ho
      · exact ih st hwfs o hmem
    · rw [runFiles_cons_of_step t d st f fs _ _ _ hstep rfl] at hmem
      dsimp only at hmem
      rcases List.mem_cons.1 hmem with hmem | hmem
      · intro p sub ts c e fb dr ho; rw [hmem] at ho; cases ho
      · exact ih st hwfs o hmem
    · rw [runFiles_cons_of_step_fatal t d st f fs _ _ _ e2 hstep rfl] at hmem
      intro p sub ts c e fb dr ho
      rcases List.mem_singleton.1 hmem with hmem2
      rw [hmem2] at ho
      cases ho
    · rw [runFiles_cons_of_step t d st f fs _ _ _ hstep rfl] at hmem
      dsimp only at hmem
      rcases List.mem_cons.1 hmem with hmem | hmem
      · intro p sub ts c e fb dr ho; rw [hmem] at ho; cases ho
      · exact ih st hwfs o hmem
    · rw [runFiles_cons_of_step_fatal t d st f fs _ _ _ e2 hstep rfl] at hmem
      intro p sub ts c e fb dr ho
      rcases List.mem_singleton.1 hmem with hmem2
      rw [hmem2] at ho
      cases ho
    · rw [runFiles_cons_of_step t d st f fs _ _ _ hstep rfl] at hmem
      dsimp only at hmem
      rcases List.mem_cons.1 hmem with hmem | hmem
      · intro p sub ts c e fb dr ho
        rw [hmem] at ho
        injection ho with g1 g2 g3 g4 g5 g6 g7
        subst g2 g3 g5
        refine ⟨hm, resolvedDate f, hwff, rfl, ?_⟩
        unfold subDirOf
        by_cases himg : isImageFile f.ext
        · simp [himg]
        · simp [himg]
      · exact ih _ hwfs o hmem
    · rw [runFiles_cons_of_step_fatal t d st f fs _ _ _ e2 hstep rfl] at hmem
      intro p sub ts c e fb dr ho
      rcases List.mem_singleton.1 hmem with hmem2
      rw [hmem2] at ho
      cases ho
    · rw [runFiles_cons_of_step t d st f fs _ _ _ hstep rfl] at hmem
      dsimp only at hmem
      rcases List.mem_cons.1 hmem with hmem | hmem
      · intro p sub ts c e fb dr ho
        rw [hmem] at ho
        injection ho with g1 g2 g3 g4 g5 g6 g7
        subst g2 g3 g5
        refine ⟨hm, resolvedDate f, hwff, rfl, ?_⟩
        unfold subDirOf
        by_cases himg : isImageFile f.ext
        · simp [himg]
        · simp [himg]
      · exact ih _ hwfs o hmem

theorem runFiles_dry_ops (t : String) :
    ∀ (files : List WalkEntry) (st : PState),
      ∀ op ∈ (runFiles t true st files).ops, ∃ dir, op = FsOp.mkdirAll dir := by
  intro files
  induction files with
  | nil =>
    intro st op hop
    rw [runFiles_nil] at hop
    simp at hop
  | cons f fs ih =>
    intro st op hop
    rcases stepFile_shape t true st f with
      ⟨e2, hw, hstep⟩ | ⟨hw, hd, hstep⟩ | ⟨hw, hd, hm, hstep⟩ | ⟨e2, hw, hd, hm, hh, hstep⟩ |
      ⟨hsh, ex, hw, hd, hm, hh, hlk, hstep⟩ | ⟨hsh, e2, hw, hd, hm, hh, hlk, hmk, hstep⟩ |
      ⟨hsh, hw, hd, hm, hh, hlk, hmk, hdry, hstep⟩ |
      ⟨hsh, mops, e2, hw, hd, hm, hh, hlk, hmk, hdry, hmv, hstep⟩ |
      ⟨hsh, mops, hw, hd, hm, hh, hlk, hmk, hdry, hmv, hstep⟩
    · rw [runFiles_cons_of_step_fatal t true st f fs _ _ _ e2 hstep rfl] at hop
      simp at hop
    · rw [runFiles_cons_of_step t true st f fs _ _ _ hstep rfl] at hop
      dsimp only at hop
      rw [List.nil_append] at hop
      exact ih st op hop
    · rw [runFiles_cons_of_step t true st f fs _ _ _ hstep rfl] at hop
      dsimp only at hop
      rw [List.nil_append] at hop
      exact ih st op hop
    · rw [runFiles_cons_of_step_fatal t true st f fs _ _ _ e2 hstep rfl] at hop
      simp at hop
    · rw [runFiles_cons_of_step t true st f fs _ _ _ hstep rfl] at hop
      dsimp only at hop
      simp only [Bool.not_true, Bool.false_and, Bool.false_eq_true, if_false,
        List.nil_append] at hop
      exact ih st op hop
    · rw [runFiles_cons_of_step_fatal t true st f fs _ _ _ e2 hstep rfl] at hop
      simp at hop
    · rw [runFiles_cons_of_step t true st f fs _ _ _ hstep rfl] at hop
      dsimp only at hop
      rcases List.mem_append.1 hop with hop | hop
      · exact ⟨subDirOf t f, List.mem_singleton.1 hop⟩
      · exact ih _ op hop
    · cases hdry
    · cases hdry

/-! ### Claim theorems -/

/-- Claim C6 (amended): a file whose lowercased extension matches neither
the image set nor the video set is skipped entirely by the walk callback —
its content hash is never computed, it is not recorded for duplicate
detection, and no filesystem operation or report concerns it; the state is
unchanged. -/
theorem spec_c6 (t : String) (d : Bool) (st : PState) (f : WalkEntry)
    (hw : f.walkErr = none) (hd : f.isDir = false)
    (hm : (isImageFile f.ext || isVideoFile f.ext) = false) :
    stepFile t d st f = (st, .otherSkip f.path, []) :=
  stepFile_otherSkip t d st f hw hd hm

theorem spec_c6_witness :
    stepFile "/t" false ⟨[], []⟩ (entryAt "/s/n.txt" ".txt" ⟨2023, 5, 1, 10, 0, 0⟩ "h9") =
      (⟨[], []⟩, .otherSkip "/s/n.txt", []) :=
  spec_c6 "/t" false ⟨[], []⟩ (entryAt "/s/n.txt" ".txt" ⟨2023, 5, 1, 10, 0, 0⟩ "h9")
    rfl rfl (by decide)

/-- Claim C6, counterexample to the original wording: two `.txt` files
with byte-identical content (same fingerprint would be `"h1"`) are both
skipped — neither is hashed, the second is not reported as a duplicate,
the hash map stays empty, and even a `.txt` file whose hash computation
would fail does not abort the run, proving the hash is never computed. -/
theorem spec_c6_counterexample :
    (processFiles "/s" "/t" false
      [entryAt "/s/a.txt" ".txt" ⟨2023, 5, 1, 10, 0, 0⟩ "h1",
        entryAt "/s/b.txt" ".txt" ⟨2023, 5, 1, 10, 0, 0⟩ "h1"]).outcomes =
      [.otherSkip "/s/a.txt", .otherSkip "/s/b.txt"] ∧
    (processFiles "/s" "/t" false
      [entryAt "/s/a.txt" ".txt" ⟨2023, 5, 1, 10, 0, 0⟩ "h1",
        entryAt "/s/b.txt" ".txt" ⟨2023, 5, 1, 10, 0, 0⟩ "h1"]).state.fileHashes = [] ∧
    (processFiles "/s" "/t" false
      [entryAt "/s/a.txt" ".txt" ⟨2023, 5, 1, 10, 0, 0⟩ "h1",
        entryAt "/s/b.txt" ".txt" ⟨2023, 5, 1, 10, 0, 0⟩ "h1"]).ops = [] ∧
    (processFiles "/s" "/t" false
      [⟨"/s/c.txt", false, none, ".txt", .error "read failed",
        metaAt ⟨2023, 5, 1, 10, 0, 0⟩, ⟨2024, 1, 1, 0, 0, 0⟩, none, none, mEnvOk⟩]).err =
      none := by
  decide

/-- Claim C7: the transfer first attempts a rename (when the rename
succeeds nothing else happens, whatever the copy oracles say); if the
rename fails it falls back to a byte copy followed by deletion of the
source; and if the copy step itself fails, the returned error is exactly
the copy error and no performed operation touches the source file. -/
theorem spec_c7 (src dest : String) (env : MoveEnv) (hne : src ≠ dest)
    (hmk : env.mkdirErr = none) :
    (env.renameErr = none →
      moveFile src dest env = ([.mkdirAll (dirOf dest), .renamed src dest], none)) ∧
    (∀ re, env.renameErr = some re → env.openErr = none → env.createErr = none →
      env.ioErr = none → env.removeErr = none →
      moveFile src dest env =
        ([.mkdirAll (dirOf dest), .createdFile dest true, .removeFile src], none)) ∧
    (∀ re e, env.renameErr = some re → (copyFile src dest env).2 = some e →
      (moveFile src dest env).2 = some e ∧
      ∀ op ∈ (moveFile src dest env).1, op.touches src = false) := by
  have hbne : (dest == src) = false := beq_eq_false_iff_ne.2 (fun hc2 => hne hc2.symm)
  refine ⟨?_, ?_, ?_⟩
  · intro hre
    simp [moveFile, hmk, hre]
  · intro re hre ho hc hio hrm
    simp [moveFile, copyFile, hmk, hre, ho, hc, hio, hrm]
  · intro re e hre hcerr
    cases hco : env.openErr with
    | some eo =>
      have hcf : copyFile src dest env = ([], some eo) := by simp [copyFile, hco]
      rw [hcf] at hcerr
      have he : eo = e := by simpa using hcerr
      subst he
      have hmf : moveFile src dest env = ([.mkdirAll (dirOf dest)], some eo) := by
        simp [moveFile, hmk, hre, hcf]
      rw [hmf]
      refine ⟨rfl, ?_⟩
      intro op hop
      rw [List.mem_singleton.1 hop]
      rfl
    | none =>
      cases hcc : env.createErr with
      | some ec =>
        have hcf : copyFile src dest env = ([], some ec) := by simp [copyFile, hco, hcc]
        rw [hcf] at hcerr
        have he : ec = e := by simpa using hcerr
        subst he
        have hmf : moveFile src dest env = ([.mkdirAll (dirOf dest)], some ec) := by
          simp [moveFile, hmk, hre, hcf]
        rw [hmf]
        refine ⟨rfl, ?_⟩
        intro op hop
        rw [List.mem_singleton.1 hop]
        rfl
      | none =>
        cases hci : env.ioErr with
        | some ei =>
          have hcf : copyFile src dest env = ([.createdFile dest false], some ei) := by
            simp [copyFile, hco, hcc, hci]
          rw [hcf] at hcerr
          have he : ei = e := by simpa using hcerr
          subst he
          have hmf : moveFile src dest env =
              ([.mkdirAll (dirOf dest), .createdFile dest false], some ei) := by
            simp [moveFile, hmk, hre, hcf]
          rw [hmf]
          refine ⟨rfl, ?_⟩
          intro op hop
          rcases List.mem_cons.1 hop with hop | hop
          · rw [hop]; rfl
          · rw [List.mem_singleton.1 hop]
            simp [FsOp.touches, hbne]
        | none =>
          have hcf : copyFile src dest env = ([.createdFile dest true], none) := by
            simp [copyFile, hco, hcc, hci]
          rw [hcf] at hcerr
          simp at hcerr

theorem spec_c7_witness :
    (moveFile "/s/a.jpg" "/t/x.jpg"
      ⟨none, some "cross-device link", none, none, some "disk full", none⟩).2 =
        some "disk full" ∧
    ∀ op ∈ (moveFile "/s/a.jpg" "/t/x.jpg"
      ⟨none, some "cross-device link", none, none, some "disk full", none⟩).1,
      op.touches "/s/a.jpg" = false :=
  (spec_c7 "/s/a.jpg" "/t/x.jpg"
    ⟨none, some "cross-device link", none, none, some "disk full", none⟩
    (by decide) rfl).2.2 "cross-device link" "disk full" rfl (by decide)

/-- Claim C9: when the rename has failed and the byte copy fails midway
(`io.Copy` errors after `os.Create` succeeded), the destination file
remains on disk with partial content — no operation removes it — while
the error is surfaced and the source is untouched. -/
theorem spec_c9 (src dest : String) (env : MoveEnv) (hne : src ≠ dest)
    (h1 : env.mkdirErr = none) (re : String) (h2 : env.renameErr = some re)
    (h3 : env.openErr = none) (h4 : env.createErr = none)
    (ioe : String) (h5 : env.ioErr = some ioe) :
    moveFile src dest env =
      ([.mkdirAll (dirOf dest), .createdFile dest false], some ioe) ∧
    FsOp.createdFile dest false ∈ (moveFile src dest env).1 ∧
    (∀ op ∈ (moveFile src dest env).1, op ≠ FsOp.removeFile dest) ∧
    (∀ op ∈ (moveFile src dest env).1, op.touches src = false) := by
  have hbne : (dest == src) = false := beq_eq_false_iff_ne.2 (fun hc2 => hne hc2.symm)
  have hmf : moveFile src dest env =
      ([.mkdirAll (dirOf dest), .createdFile dest false], some ioe) := by
    simp [moveFile, copyFile, h1, h2, h3, h4, h5]
  refine ⟨hmf, ?_, ?_, ?_⟩
  · rw [hmf]; simp
  · rw [hmf]
    intro op hop
    rcases List.mem_cons.1 hop with hop | hop
    · rw [hop]; simp
    · rw [List.mem_singleton.1 hop]; simp
  · rw [hmf]
    intro op hop
    rcases List.mem_cons.1 hop with hop | hop
    · rw [hop]; rfl
    · rw [List.mem_singleton.1 hop]
      simp [FsOp.touches, hbne]

theorem spec_c9_witness :
    moveFile "/s/a.jpg" "/t/x.jpg"
      ⟨none, some "cross-device link", none, none, some "disk full", none⟩ =
      ([.mkdirAll "/t", .createdFile "/t/x.jpg" false], some "disk full") ∧
    FsOp.createdFile "/t/x.jpg" false ∈ (moveFile "/s/a.jpg" "/t/x.jpg"
      ⟨none, some "cross-device link", none, none, some "disk full", none⟩).1 := by
  have h := spec_c9 "/s/a.jpg" "/t/x.jpg"
    ⟨none, some "cross-device link", none, none, some "disk full", none⟩
    (by decide) rfl "cross-device link" rfl rfl rfl "disk full" rfl
  exact ⟨by rw [h.1]; decide, h.2.1⟩

/-- Claim C5 (amended): when EXIF extraction for an image fails (decode
failure or missing date field), `getImageDate` reports the failure upward
with the original cause preserved as the suffix of the message, and
`getFileDate` propagates it likewise; the pipeline then resolves the
file's timestamp to the current wall-clock time (`time.Now()`), not to the
file's filesystem modification time. -/
theorem spec_c5 (f : WalkEntry) (himg : isImageFile f.ext = true) :
    (∀ e, f.meta.exif.openErr = none → f.meta.exif.decodeErr = some e →
      getImageDate f.path f.meta.exif =
        .error ("error extracting EXIF data from image " ++ f.path ++ ": " ++ e)) ∧
    (∀ e, f.meta.exif.openErr = none → f.meta.exif.decodeErr = none →
      f.meta.exif.dateTimeResult = .error e →
      getImageDate f.path f.meta.exif =
        .error ("error extracting date from EXIF data for image " ++ f.path ++ ": " ++ e)) ∧
    (∀ e2, getImageDate f.path f.meta.exif = .error e2 →
      getFileDate f.path f.ext f.meta =
        .error ("error extracting date from image " ++ f.path ++ ": " ++ e2) ∧
      resolvedDate f = f.nowTime ∧ dateFellBack f = true) := by
  refine ⟨?_, ?_, ?_⟩
  · intro e ho hdec
    simp [getImageDate, ho, hdec]
  · intro e ho hdec hdt
    simp [getImageDate, ho, hdec, hdt]
  · intro e2 hie
    have hgf : getFileDate f.path f.ext f.meta =
        .error ("error extracting date from image " ++ f.path ++ ": " ++ e2) := by
      simp [getFileDate, himg, hie]
    exact ⟨hgf, by simp [resolvedDate, hgf], by simp [dateFellBack, hgf]⟩

theorem spec_c5_witness :
    getFileDate brokenExifEntry.path brokenExifEntry.ext brokenExifEntry.meta =
      .error ("error extracting date from image " ++ brokenExifEntry.path ++ ": " ++
        "error extracting EXIF data from image /s/a.jpg: exif decode failed") ∧
    resolvedDate brokenExifEntry = brokenExifEntry.nowTime ∧
    dateFellBack brokenExifEntry = true :=
  (spec_c5 brokenExifEntry rfl).2.2
    "error extracting EXIF data from image /s/a.jpg: exif decode failed" (by decide)

/-- Claim C5, counterexample to the original wording: for an image whose
EXIF decode fails, whose `os.Stat` modification time is 2020-01-02
03:04:05 and whose processing-time wall clock reads 2021-06-07 08:09:10,
the pipeline places the file under the wall-clock timestamp
`07-06-2021-08-09-10`, not under the modification-time timestamp — the
fallback is `time.Now()` (main.go line 105), not the file's modification
time. -/
theorem spec_c5_counterexample :
    (processFiles "/s" "/t" true [brokenExifEntry]).outcomes =
      [.placed "/s/a.jpg" "/t/images/2021/06" "07-06-2021-08-09-10" 0 ".jpg" true true] ∧
    brokenExifEntry.meta.statResult = Except.ok ⟨2020, 1, 2, 3, 4, 5⟩ ∧
    fmtTimestamp ⟨2020, 1, 2, 3, 4, 5⟩ = "02-01-2020-03-04-05" ∧
    "07-06-2021-08-09-10" ≠ "02-01-2020-03-04-05" := by
  decide

/-- Claim C2 (amended): a dry run performs no deletion, no rename, no file
creation and no copy — the only filesystem-mutating call it ever issues is
`os.MkdirAll` on a destination subdirectory, which it still issues for
every newly-seen media file (main.go line 119 is not guarded by the
dry-run flag). -/
theorem spec_c2 (s t : String) (files : List WalkEntry) :
    ∀ op ∈ (processFiles s t true files).ops, ∃ dir, op = FsOp.mkdirAll dir :=
  fun op hop => runFiles_dry_ops t files ⟨[], []⟩ op hop

theorem spec_c2_witness :
    ∃ dir, FsOp.mkdirAll "/t/images/2023/05" = FsOp.mkdirAll dir :=
  spec_c2 "/s" "/t" [entryAt "/s/a.jpg" ".jpg" ⟨2023, 5, 1, 10, 0, 0⟩ "h1"]
    (FsOp.mkdirAll "/t/images/2023/05") (by decide)

/-- Claim C2, counterexample to the original wording: with dry-run set,
processing a single new image still issues `os.MkdirAll` on the
destination subdirectory `/t/images/2023/05` — a filesystem entry is
created whenever that directory does not already exist, so dry-run is not
mutation-free. -/
theorem spec_c2_counterexample :
    (processFiles "/s" "/t" true [entryAt "/s/a.jpg" ".jpg" ⟨2023, 5, 1, 10, 0, 0⟩ "h1"]).ops =
      [FsOp.mkdirAll "/t/images/2023/05"] ∧
    (processFiles "/s" "/t" true
      [entryAt "/s/a.jpg" ".jpg" ⟨2023, 5, 1, 10, 0, 0⟩ "h1"]).ops ≠ [] := by
  decide

/-- Claim C8: an error while hashing a media file, or a failure of the
destination-directory creation for a newly-seen media file, aborts the
whole walk — the run on `pre ++ f :: post` equals the run on `pre ++ [f]`
(no file after `f` is processed), and the failing call's error is the one
surfaced to the caller. -/
theorem spec_c8 (s t : String) (d : Bool) (pre : List WalkEntry) (f : WalkEntry)
    (post : List WalkEntry)
    (hpre : (processFiles s t d pre).err = none)
    (hw : f.walkErr = none) (hd : f.isDir = false)
    (hm : (isImageFile f.ext || isVideoFile f.ext) = true) :
    (∀ e, f.hashResult = .error e →
      processFiles s t d (pre ++ f :: post) = processFiles s t d (pre ++ [f]) ∧
      (processFiles s t d (pre ++ f :: post)).err = some e ∧
      (processFiles s t d (pre ++ f :: post)).outcomes =
        (processFiles s t d pre).outcomes ++ [.hashFail f.path e]) ∧
    (∀ hsh e, f.hashResult = .ok hsh →
      List.lookup hsh (processFiles s t d pre).state.fileHashes = none →
      f.mkdirErr = some e →
      processFiles s t d (pre ++ f :: post) = processFiles s t d (pre ++ [f]) ∧
      (processFiles s t d (pre ++ f :: post)).err = some e ∧
      (processFiles s t d (pre ++ f :: post)).outcomes =
        (processFiles s t d pre).outcomes ++ [.mkdirFail f.path (subDirOf t f) e]) := by
  simp only [processFiles] at hpre ⊢
  constructor
  · intro e hh
    have hstep := stepFile_hashFail t d (runFiles t d ⟨[], []⟩ pre).state f e hw hd hm hh
    have h1 : runFiles t d ⟨[], []⟩ (pre ++ f :: post) =
        ⟨(runFiles t d ⟨[], []⟩ pre).state,
          (runFiles t d ⟨[], []⟩ pre).outcomes ++ [.hashFail f.path e],
          (runFiles t d ⟨[], []⟩ pre).ops ++ [], some e⟩ := by
      rw [runFiles_append_ok t d pre (f :: post) ⟨[], []⟩ hpre,
        runFiles_cons_of_step_fatal t d _ f post _ _ _ e hstep rfl]
    have h2 : runFiles t d ⟨[], []⟩ (pre ++ [f]) =
        ⟨(runFiles t d ⟨[], []⟩ pre).state,
          (runFiles t d ⟨[], []⟩ pre).outcomes ++ [.hashFail f.path e],
          (runFiles t d ⟨[], []⟩ pre).ops ++ [], some e⟩ := by
      rw [runFiles_append_ok t d pre [f] ⟨[], []⟩ hpre,
        runFiles_cons_of_step_fatal t d _ f [] _ _ _ e hstep rfl]
    rw [h1, h2]
    exact ⟨rfl, rfl, rfl⟩
  · intro hsh e hh hlk hmk
    have hstep : stepFile t d (runFiles t d ⟨[], []⟩ pre).state f =
        (⟨(hsh, f.path) :: (runFiles t d ⟨[], []⟩ pre).state.fileHashes,
            (runFiles t d ⟨[], []⟩ pre).state.timestampCounter⟩,
          .mkdirFail f.path (subDirOf t f) e, []) := by
      rw [stepFile_new t d (runFiles t d ⟨[], []⟩ pre).state f hsh hw hd hm hh hlk,
        stepNew_mkdirFail t d (runFiles t d ⟨[], []⟩ pre).state f hsh e hmk]
    have h1 : runFiles t d ⟨[], []⟩ (pre ++ f :: post) =
        ⟨⟨(hsh, f.path) :: (runFiles t d ⟨[], []⟩ pre).state.fileHashes,
            (runFiles t d ⟨[], []⟩ pre).state.timestampCounter⟩,
          (runFiles t d ⟨[], []⟩ pre).outcomes ++ [.mkdirFail f.path (subDirOf t f) e],
          (runFiles t d ⟨[], []⟩ pre).ops ++ [], some e⟩ := by
      rw [runFiles_append_ok t d pre (f :: post) ⟨[], []⟩ hpre,
        runFiles_cons_of_step_fatal t d _ f post _ _ _ e hstep rfl]
    have h2 : runFiles t d ⟨[], []⟩ (pre ++ [f]) =
        ⟨⟨(hsh, f.path) :: (runFiles t d ⟨[], []⟩ pre).state.fileHashes,
            (runFiles t d ⟨[], []⟩ pre).state.timestampCounter⟩,
          (runFiles t d ⟨[], []⟩ pre).outcomes ++ [.mkdirFail f.path (subDirOf t f) e],
          (runFiles t d ⟨[], []⟩ pre).ops ++ [], some e⟩ := by
      rw [runFiles_append_ok t d pre [f] ⟨[], []⟩ hpre,
        runFiles_cons_of_step_fatal t d _ f [] _ _ _ e hstep rfl]
    rw [h1, h2]
    exact ⟨rfl, rfl, rfl⟩

theorem spec_c8_witness :
    processFiles "/s" "/t" false
      ([entryAt "/s/a.jpg" ".jpg" ⟨2023, 5, 1, 10, 0, 0⟩ "h1"] ++
        ⟨"/s/b.jpg", false, none, ".jpg", .error "read failed",
          metaAt ⟨2023, 5, 1, 10, 0, 0⟩, ⟨2024, 1, 1, 0, 0, 0⟩, none, none, mEnvOk⟩ ::
          [entryAt "/s/c.jpg" ".jpg" ⟨2023, 5, 2, 10, 0, 0⟩ "h3"]) =
      processFiles "/s" "/t" false
        ([entryAt "/s/a.jpg" ".jpg" ⟨2023, 5, 1, 10, 0, 0⟩ "h1"] ++
          [⟨"/s/b.jpg", false, none, ".jpg", .error "read failed",
            metaAt ⟨2023, 5, 1, 10, 0, 0⟩, ⟨2024, 1, 1, 0, 0, 0⟩, none, none, mEnvOk⟩]) ∧
    (processFiles "/s" "/t" false
      ([entryAt "/s/a.jpg" ".jpg" ⟨2023, 5, 1, 10, 0, 0⟩ "h1"] ++
        ⟨"/s/b.jpg", false, none, ".jpg", .error "read failed",
          metaAt ⟨2023, 5, 1, 10, 0, 0⟩, ⟨2024, 1, 1, 0, 0, 0⟩, none, none, mEnvOk⟩ ::
          [entryAt "/s/c.jpg" ".jpg" ⟨2023, 5, 2, 10, 0, 0⟩ "h3"])).err =
      some "read failed" :=
  have h := (spec_c8 "/s" "/t" false
    [entryAt "/s/a.jpg" ".jpg" ⟨2023, 5, 1, 10, 0, 0⟩ "h1"]
    ⟨"/s/b.jpg", false, none, ".jpg", .error "read failed",
      metaAt ⟨2023, 5, 1, 10, 0, 0⟩, ⟨2024, 1, 1, 0, 0, 0⟩, none, none, mEnvOk⟩
    [entryAt "/s/c.jpg" ".jpg" ⟨2023, 5, 2, 10, 0, 0⟩ "h3"]
    (by decide) rfl rfl (by decide)).1 "read failed" rfl
  ⟨h.1, h.2.1⟩

/-- Claim C1: when an earlier media file of the run already supplied the
content fingerprint `h` (first such path `p₀`), a later media file `f`
with the same fingerprint is never placed: it is reported as a duplicate
of `p₀`, deletion of `f` is attempted exactly when dry-run is off and
recorded as failed when `os.Remove` errors, the run's maps are unchanged
by `f`, and the walk continues with the remaining files in either case. -/
theorem spec_c1 (s t : String) (d : Bool) (pre : List WalkEntry) (f : WalkEntry)
    (post : List WalkEntry) (h p₀ : String)
    (hpre : (processFiles s t d pre).err = none)
    (hw : f.walkErr = none) (hd : f.isDir = false)
    (hm : (isImageFile f.ext || isVideoFile f.ext) = true)
    (hh : f.hashResult = .ok h)
    (hfirst : firstWithHash h pre = some p₀) :
    processFiles s t d (pre ++ f :: post) =
      ⟨(runFiles t d (processFiles s t d pre).state post).state,
        (processFiles s t d pre).outcomes ++
          .dupFound f.path p₀ (!d) (!d && f.removeErr.isNone) ::
            (runFiles t d (processFiles s t d pre).state post).outcomes,
        (processFiles s t d pre).ops ++
          ((if !d && f.removeErr.isNone then [FsOp.removeFile f.path] else []) ++
            (runFiles t d (processFiles s t d pre).state post).ops),
        (runFiles t d (processFiles s t d pre).state post).err⟩ := by
  simp only [processFiles] at hpre ⊢
  have hlk : List.lookup h (runFiles t d ⟨[], []⟩ pre).state.fileHashes = some p₀ := by
    have hinv := runFiles_lookup_hash t d h pre ⟨[], []⟩ hpre
    have h0 : List.lookup h (⟨[], []⟩ : PState).fileHashes = none := rfl
    rw [h0] at hinv
    dsimp only at hinv
    rw [hinv, hfirst]
  have hstep := stepFile_dup t d (runFiles t d ⟨[], []⟩ pre).state f h p₀ hw hd hm hh hlk
  rw [runFiles_append_ok t d pre (f :: post) ⟨[], []⟩ hpre,
    runFiles_cons_of_step t d _ f post _ _ _ hstep rfl]

theorem spec_c1_witness :
    processFiles "/s" "/t" false ([eDupA] ++ eDupB :: [eDupC]) =
      ⟨(runFiles "/t" false (processFiles "/s" "/t" false [eDupA]).state [eDupC]).state,
        (processFiles "/s" "/t" false [eDupA]).outcomes ++
          .dupFound eDupB.path "/s/a.jpg" (!false) (!false && eDupB.removeErr.isNone) ::
            (runFiles "/t" false (processFiles "/s" "/t" false [eDupA]).state [eDupC]).outcomes,
        (processFiles "/s" "/t" false [eDupA]).ops ++
          ((if !false && eDupB.removeErr.isNone then [FsOp.removeFile eDupB.path] else []) ++
            (runFiles "/t" false (processFiles "/s" "/t" false [eDupA]).state [eDupC]).ops),
        (runFiles "/t" false (processFiles "/s" "/t" false [eDupA]).state [eDupC]).err⟩ ∧
    (processFiles "/s" "/t" false ([eDupA] ++ eDupB :: [eDupC])).err = none ∧
    (processFiles "/s" "/t" false ([eDupA] ++ eDupB :: [eDupC])).outcomes.length = 3 :=
  ⟨spec_c1 "/s" "/t" false [eDupA] eDupB [eDupC] "h1" "/s/a.jpg"
    (by decide) rfl rfl (by decide) rfl (by decide),
   by decide, by decide⟩

/-- Claim C3: within one run, the placement outcomes whose resolved
timestamps format to the same string `T` receive, in processing order,
the collision counters 0, 1, 2, …; the file at position `n` of that
subsequence is therefore named with the bare timestamp when `n = 0` and
with the zero-padded suffix `-NN` (`-01`, `-02`, …) otherwise. -/
theorem spec_c3 (s t : String) (d : Bool) (files : List WalkEntry) (T : String)
    (n c : Nat) (e : String)
    (hn : (placedWithTs T (processFiles s t d files).outcomes)[n]? = some (c, e)) :
    c = n ∧ mkFileName T c e = (if n = 0 then T ++ e else T ++ "-" ++ pad2 n ++ e) := by
  have hmap := runFiles_placedWithTs t d T files ⟨[], []⟩
  have h0 : nextIdx T (⟨[], []⟩ : PState) = 0 := rfl
  rw [h0] at hmap
  have hlen : n < (placedWithTs T (processFiles s t d files).outcomes).length :=
    (List.getElem?_eq_some_iff.1 hn).1
  have hcn : c = n := by
    have h1 : (List.map Prod.fst (placedWithTs T (processFiles s t d files).outcomes))[n]? =
        some c := by
      rw [List.getElem?_map, hn]
      rfl
    simp only [processFiles] at h1 hlen
    rw [hmap] at h1
    rw [List.getElem?_range' 0 1 hlen] at h1
    have := Option.some.inj h1
    omega
  refine ⟨hcn, ?_⟩
  rw [hcn]
  by_cases hz : n = 0
  · subst hz
    simp [mkFileName]
  · simp [mkFileName, Nat.pos_of_ne_zero hz, hz]

theorem spec_c3_witness :
    (2 : Nat) = 2 ∧
    mkFileName "01-05-2023-10-00-00" 2 ".jpg" =
      (if 2 = 0 then "01-05-2023-10-00-00" ++ ".jpg"
        else "01-05-2023-10-00-00" ++ "-" ++ pad2 2 ++ ".jpg") :=
  spec_c3 "/s" "/t" false
    [entryAt "/s/a.jpg" ".jpg" ⟨2023, 5, 1, 10, 0, 0⟩ "h1",
      entryAt "/s/b.jpg" ".jpg" ⟨2023, 5, 1, 10, 0, 0⟩ "h2",
      entryAt "/s/c.jpg" ".jpg" ⟨2023, 5, 1, 10, 0, 0⟩ "h3"]
    "01-05-2023-10-00-00" 2 2 ".jpg" (by decide)

theorem isImageFile_eq_false_of_isVideoFile (e : String) (h : isVideoFile e = true) :
    isImageFile e = false := by
  simp only [isVideoFile, Bool.or_eq_true, beq_iff_eq] at h
  rcases h with ((((((((h | h) | h) | h) | h) | h) | h) | h) | h) <;> subst h <;> decide

/-- Claim C10: the collision counter is keyed by the formatted timestamp
string alone.  An image `f` and a video `g` with distinct content whose
resolved timestamps format to the same string are placed in different
subdirectories (`images/…` vs `videos/…`), yet draw from one shared
counter: the image gets counter 0 (bare name) and the video counter 1 —
the suffixed name `T-01<ext>` — even though it is the only file placed in
its own subdirectory. -/
theorem spec_c10 (s t : String) (d : Bool) (f g : WalkEntry) (h₁ h₂ : String)
    (hfw : f.walkErr = none) (hfd : f.isDir = false) (hfimg : isImageFile f.ext = true)
    (hgw : g.walkErr = none) (hgd : g.isDir = false) (hgvid : isVideoFile g.ext = true)
    (hfh : f.hashResult = .ok h₁) (hgh : g.hashResult = .ok h₂) (hne : h₂ ≠ h₁)
    (hfmk : f.mkdirErr = none) (hgmk : g.mkdirErr = none)
    (hfm1 : f.moveEnv.mkdirErr = none) (hfm2 : f.moveEnv.renameErr = none)
    (hgm1 : g.moveEnv.mkdirErr = none) (hgm2 : g.moveEnv.renameErr = none)
    (hts : fmtTimestamp (resolvedDate g) = fmtTimestamp (resolvedDate f)) :
    (processFiles s t d [f, g]).outcomes =
      [.placed f.path (subDirOf t f) (fmtTimestamp (resolvedDate f)) 0 f.ext
          (dateFellBack f) d,
        .placed g.path (subDirOf t g) (fmtTimestamp (resolvedDate f)) 1 g.ext
          (dateFellBack g) d] ∧
    subDirOf t f ≠ subDirOf t g ∧
    mkFileName (fmtTimestamp (resolvedDate f)) 1 g.ext =
      fmtTimestamp (resolvedDate f) ++ "-" ++ "01" ++ g.ext := by
  have hgimg : isImageFile g.ext = false := isImageFile_eq_false_of_isVideoFile g.ext hgvid
  have hfm : (isImageFile f.ext || isVideoFile f.ext) = true := by simp [hfimg]
  have hgm : (isImageFile g.ext || isVideoFile g.ext) = true := by simp [hgvid]
  have hlk2 : List.lookup h₂
      ((⟨[(h₁, f.path)], [(fmtTimestamp (resolvedDate f), 0)]⟩ : PState)).fileHashes =
      none := by
    simp [List.lookup, beq_eq_false_iff_ne.2 hne]
  refine ⟨?_, ?_, ?_⟩
  · simp only [processFiles]
    cases d with
    | true =>
      have hstep1 : stepFile t true (⟨[], []⟩ : PState) f =
          (⟨[(h₁, f.path)], [(fmtTimestamp (resolvedDate f), 0)]⟩,
            .placed f.path (subDirOf t f) (fmtTimestamp (resolvedDate f)) 0 f.ext
              (dateFellBack f) true,
            [.mkdirAll (subDirOf t f)]) := by
        rw [stepFile_new t true ⟨[], []⟩ f h₁ hfw hfd hfm hfh rfl,
          stepNew_dry t ⟨[], []⟩ f h₁ hfmk]
        rfl
      have hstep2 : stepFile t true
          (⟨[(h₁, f.path)], [(fmtTimestamp (resolvedDate f), 0)]⟩ : PState) g =
          (⟨[(h₂, g.path), (h₁, f.path)],
              [(fmtTimestamp (resolvedDate f), 1), (fmtTimestamp (resolvedDate f), 0)]⟩,
            .placed g.path (subDirOf t g) (fmtTimestamp (resolvedDate f)) 1 g.ext
              (dateFellBack g) true,
            [.mkdirAll (subDirOf t g)]) := by
        rw [stepFile_new t true _ g h₂ hgw hgd hgm hgh hlk2,
          stepNew_dry t _ g h₂ hgmk, hts, nextIdx_cons_eq]
      rw [runFiles_cons_of_step t true ⟨[], []⟩ f [g] _ _ _ hstep1 rfl]
      dsimp only
      rw [runFiles_cons_of_step t true _ g [] _ _ _ hstep2 rfl]
      dsimp only
      rw [runFiles_nil]
    | false =>
      have hmvf : ∀ src dst, moveFile src dst f.moveEnv =
          ([.mkdirAll (dirOf dst), .renamed src dst], none) := fun src dst => by
        simp [moveFile, hfm1, hfm2]
      have hmvg : ∀ src dst, moveFile src dst g.moveEnv =
          ([.mkdirAll (dirOf dst), .renamed src dst], none) := fun src dst => by
        simp [moveFile, hgm1, hgm2]
      have hstep1 : stepFile t false (⟨[], []⟩ : PState) f =
          (⟨[(h₁, f.path)], [(fmtTimestamp (resolvedDate f), 0)]⟩,
            .placed f.path (subDirOf t f) (fmtTimestamp (resolvedDate f)) 0 f.ext
              (dateFellBack f) false,
            [.mkdirAll (subDirOf t f),
              .mkdirAll (dirOf (subDirOf t f ++ "/" ++
                mkFileName (fmtTimestamp (resolvedDate f)) 0 f.ext)),
              .renamed f.path (subDirOf t f ++ "/" ++
                mkFileName (fmtTimestamp (resolvedDate f)) 0 f.ext)]) := by
        rw [stepFile_new t false ⟨[], []⟩ f h₁ hfw hfd hfm hfh rfl,
          stepNew_moved t ⟨[], []⟩ f h₁ _ hfmk (hmvf f.path _)]
        rfl
      have hstep2 : stepFile t false
          (⟨[(h₁, f.path)], [(fmtTimestamp (resolvedDate f), 0)]⟩ : PState) g =
          (⟨[(h₂, g.path), (h₁, f.path)],
              [(fmtTimestamp (resolvedDate f), 1), (fmtTimestamp (resolvedDate f), 0)]⟩,
            .placed g.path (subDirOf t g) (fmtTimestamp (resolvedDate f)) 1 g.ext
              (dateFellBack g) false,
            [.mkdirAll (subDirOf t g),
              .mkdirAll (dirOf (subDirOf t g ++ "/" ++
                mkFileName (fmtTimestamp (resolvedDate f)) 1 g.ext)),
              .renamed g.path (subDirOf t g ++ "/" ++
                mkFileName (fmtTimestamp (resolvedDate f)) 1 g.ext)]) := by
        rw [stepFile_new t false _ g h₂ hgw hgd hgm hgh hlk2,
          stepNew_moved t _ g h₂ _ hgmk (hmvg g.path _), hts, nextIdx_cons_eq]
      rw [runFiles_cons_of_step t false ⟨[], []⟩ f [g] _ _ _ hstep1 rfl]
      dsimp only
      rw [runFiles_cons_of_step t false _ g [] _ _ _ hstep2 rfl]
      dsimp only
      rw [runFiles_nil]
  · have hsf : subDirOf t f = t ++ "/" ++ "images" ++ "/" ++
        pad4 (resolvedDate f).year ++ "/" ++ pad2 (resolvedDate f).month := by
      simp [subDirOf, hfimg]
    have hsg : subDirOf t g = t ++ "/" ++ "videos" ++ "/" ++
        pad4 (resolvedDate g).year ++ "/" ++ pad2 (resolvedDate g).month := by
      simp [subDirOf, hgimg]
    intro hEq
    rw [hsf, hsg] at hEq
    have hdata := congrArg String.data hEq
    simp only [String.data_append, List.append_assoc] at hdata
    have h2 := List.append_cancel_left hdata
    have h3 := List.append_cancel_left h2
    have h4 := congrArg List.head? h3
    simp only [List.cons_append, List.head?_cons] at h4
    exact absurd (Option.some.inj h4) (by decide)
  · simp [mkFileName, show pad2 1 = "01" from by decide]

theorem spec_c10_witness :
    (processFiles "/s" "/t" true
      [entryAt "/s/a.jpg" ".jpg" ⟨2023, 5, 1, 10, 0, 0⟩ "h1",
        entryAt "/s/b.mp4" ".mp4" ⟨2023, 5, 1, 10, 0, 0⟩ "h2"]).outcomes =
      [.placed "/s/a.jpg" "/t/images/2023/05" "01-05-2023-10-00-00" 0 ".jpg" false true,
        .placed "/s/b.mp4" "/t/videos/2023/05" "01-05-2023-10-00-00" 1 ".mp4" false true] ∧
    ("/t/images/2023/05" : String) ≠ "/t/videos/2023/05" ∧
    mkFileName "01-05-2023-10-00-00" 1 ".mp4" =
      "01-05-2023-10-00-00" ++ "-" ++ "01" ++ ".mp4" :=
  spec_c10 "/s" "/t" true
    (entryAt "/s/a.jpg" ".jpg" ⟨2023, 5, 1, 10, 0, 0⟩ "h1")
    (entryAt "/s/b.mp4" ".mp4" ⟨2023, 5, 1, 10, 0, 0⟩ "h2")
    "h1" "h2" rfl rfl (by decide) rfl rfl (by decide) rfl rfl (by decide)
    rfl rfl rfl rfl rfl rfl (by decide)

/-- Claim C4: any two placement outcomes of one run compute distinct
destination paths — in particular any two files with distinct content
fingerprints that are both placed receive distinct destinations.  The
well-formedness hypothesis states that every resolved timestamp has
normalized calendar fields and a year below 10000, which holds for every
timestamp Go's `time` package produces here. -/
theorem spec_c4 (s t : String) (d : Bool) (files : List WalkEntry)
    (hwf : ∀ f ∈ files, (resolvedDate f).wf) :
    ((processFiles s t d files).outcomes.filterMap Outcome.dst).Nodup := by
  simp only [processFiles]
  have hshape := runFiles_placed_shape t d files ⟨[], []⟩ hwf
  show ((runFiles t d ⟨[], []⟩ files).outcomes.filterMap Outcome.dst).Pairwise (· ≠ ·)
  rw [List.pairwise_filterMap, List.pairwise_iff_getElem]
  intro i j hi hj hij
  intro b hb b2 hb2
  rw [Option.mem_def] at hb hb2
  cases ho1 : (runFiles t d ⟨[], []⟩ files).outcomes[i] with
  | walkFail p e => rw [ho1] at hb; simp [Outcome.dst] at hb
  | dirSkip p => rw [ho1] at hb; simp [Outcome.dst] at hb
  | otherSkip p => rw [ho1] at hb; simp [Outcome.dst] at hb
  | hashFail p e => rw [ho1] at hb; simp [Outcome.dst] at hb
  | dupFound p x a k => rw [ho1] at hb; simp [Outcome.dst] at hb
  | mkdirFail p sd e => rw [ho1] at hb; simp [Outcome.dst] at hb
  | moveFail p ds e => rw [ho1] at hb; simp [Outcome.dst] at hb
  | placed p1 sub1 ts1 c1 e1 fb1 dr1 =>
    cases ho2 : (runFiles t d ⟨[], []⟩ files).outcomes[j] with
    | walkFail p e => rw [ho2] at hb2; simp [Outcome.dst] at hb2
    | dirSkip p => rw [ho2] at hb2; simp [Outcome.dst] at hb2
    | otherSkip p => rw [ho2] at hb2; simp [Outcome.dst] at hb2
    | hashFail p e => rw [ho2] at hb2; simp [Outcome.dst] at hb2
    | dupFound p x a k => rw [ho2] at hb2; simp [Outcome.dst] at hb2
    | mkdirFail p sd e => rw [ho2] at hb2; simp [Outcome.dst] at hb2
    | moveFail p ds e => rw [ho2] at hb2; simp [Outcome.dst] at hb2
    | placed p2 sub2 ts2 c2 e2 fb2 dr2 =>
      rw [ho1] at hb
      rw [ho2] at hb2
      simp only [Outcome.dst, Option.some.injEq] at hb hb2
      have hmem1 : (runFiles t d ⟨[], []⟩ files).outcomes[i] ∈
          (runFiles t d ⟨[], []⟩ files).outcomes := List.getElem_mem hi
      have hmem2 : (runFiles t d ⟨[], []⟩ files).outcomes[j] ∈
          (runFiles t d ⟨[], []⟩ files).outcomes := List.getElem_mem hj
      rw [ho1] at hmem1
      rw [ho2] at hmem2
      obtain ⟨hm1, gt1, hwf1, hts1, hsub1⟩ :=
        hshape _ hmem1 p1 sub1 ts1 c1 e1 fb1 dr1 rfl
      obtain ⟨hm2, gt2, hwf2, hts2, hsub2⟩ :=
        hshape _ hmem2 p2 sub2 ts2 c2 e2 fb2 dr2 rfl
      subst hb
      subst hb2
      intro heq
      have hy1 := hwf1.1
      have hmo1 := hwf1.2.1
      have hy2 := hwf2.1
      have hmo2 := hwf2.2.1
      have hlsub1 : sub1.data.length = t.data.length + 15 := by
        rw [hsub1]
        by_cases hk : isImageFile e1 <;>
          simp [hk, String.data_append, List.length_append,
            pad4_length _ hy1, pad2_length _ hmo1]
      have hlsub2 : sub2.data.length = t.data.length + 15 := by
        rw [hsub2]
        by_cases hk : isImageFile e2 <;>
          simp [hk, String.data_append, List.length_append,
            pad4_length _ hy2, pad2_length _ hmo2]
      have hd := congrArg String.data heq
      rw [String.data_append, String.data_append, String.data_append,
        String.data_append] at hd
      have hplen : (sub1.data ++ ("/" : String).data).length =
          (sub2.data ++ ("/" : String).data).length := by
        simp [List.length_append, hlsub1, hlsub2]
      obtain ⟨hpre, hname⟩ := List.append_inj hd hplen
      have hnm : mkFileName ts1 c1 e1 = mkFileName ts2 c2 e2 := String.ext hname
      refine mkFileName_ne ts1 ts2 c1 c2 e1 e2 ?_ ?_ hm1 hm2 ?_ hnm
      · rw [hts1]; exact fmtTimestamp_length gt1 hwf1
      · rw [hts2]; exact fmtTimestamp_length gt2 hwf2
      · by_cases hT : ts1 = ts2
        · right
          have hpw := runFiles_counter_pairwise t d ts1 files ⟨[], []⟩
          rw [List.pairwise_iff_getElem] at hpw
          rw [← hT] at ho2
          have hlt := hpw i j hi hj hij p1 sub1 c1 e1 fb1 dr1 p2 sub2 c2 e2 fb2 dr2 ho1 ho2
          exact Nat.ne_of_lt hlt
        · left; exact hT

theorem spec_c4_witness :
    ((processFiles "/s" "/t" false
      [entryAt "/s/a.jpg" ".jpg" ⟨2023, 5, 1, 10, 0, 0⟩ "h1",
        entryAt "/s/b.jpg" ".jpg" ⟨2023, 5, 1, 10, 0, 0⟩ "h2",
        entryAt "/s/c.mp4" ".mp4" ⟨2023, 5, 1, 10, 0, 0⟩ "h3"]).outcomes.filterMap
        Outcome.dst).Nodup :=
  spec_c4 "/s" "/t" false
    [entryAt "/s/a.jpg" ".jpg" ⟨2023, 5, 1, 10, 0, 0⟩ "h1",
      entryAt "/s/b.jpg" ".jpg" ⟨2023, 5, 1, 10, 0, 0⟩ "h2",
      entryAt "/s/c.mp4" ".mp4" ⟨2023, 5, 1, 10, 0, 0⟩ "h3"] (by decide)
